import Mathlib

/-!
Verification development for a small Express-based Pokémon REST API.

The repository has two variants of the server:
* a file-backed variant (`src/index.js`): an in-memory array `pokemonsList`
  loaded from a JSON file, rewritten with `fs.writeFileSync(JSON.stringify(list, null, 2))`
  after every successful mutation;
* a MongoDB/Mongoose-backed variant (CRUD on a `Pokemon` collection plus
  `/auth/register` and `/auth/login` over a `User` collection with bcrypt).

The embedding below models:
* JSON values (`JsonVal`, with mutual types for arrays and object field lists);
* `JSON.stringify(x, null, 2)` (`printV`) and `JSON.parse` (`parseVal`, fuel-indexed);
* JavaScript `parseInt` on decimal strings (`parseIntJs`), string-to-number
  coercion as used by `==` (`strToNumber`, integer-literal fragment), and the
  strict/loose id comparisons `p.id === id` / `p.id == id` (`idStrictEq`, `idLooseEq`);
* the route handlers of both variants as pure functions on a list of records;
* the Mongoose `User` schema validation (required/minlength/match/lowercase/trim)
  with its email regular expression embedded via Brzozowski derivatives (`Rx`).

Modelling conventions: records and bodies are JSON objects (association
lists of fields); machine doubles holding integral values are modelled as `Int`;
bcrypt's `hash`/`compare` are parameters of the auth handlers; Mongo's `_id`
and `Date.now()` are modelled as naturals supplied by the caller.
-/

/-! ## JSON values -/

mutual
inductive JsonVal where
  | null
  | bool (b : Bool)
  | num (n : Int)
  | str (s : String)
  | arr (elems : JsonElems)
  | obj (fields : JsonFields)

inductive JsonElems where
  | nil
  | cons (hd : JsonVal) (tl : JsonElems)

inductive JsonFields where
  | nil
  | cons (key : String) (val : JsonVal) (tl : JsonFields)
end

mutual
def jsonBeq : JsonVal → JsonVal → Bool
  | .null, .null => true
  | .bool a, .bool b => a == b
  | .num a, .num b => a == b
  | .str a, .str b => a == b
  | .arr a, .arr b => elemsBeq a b
  | .obj a, .obj b => fieldsBeq a b
  | _, _ => false

def elemsBeq : JsonElems → JsonElems → Bool
  | .nil, .nil => true
  | .cons a as, .cons b bs => jsonBeq a b && elemsBeq as bs
  | _, _ => false

def fieldsBeq : JsonFields → JsonFields → Bool
  | .nil, .nil => true
  | .cons k v tl, .cons k' v' tl' => k == k' && jsonBeq v v' && fieldsBeq tl tl'
  | _, _ => false
end

mutual
/-- Whether the key `k` occurs (at any depth) as an object key inside a JSON value. -/
def jsonHasKey (k : String) : JsonVal → Bool
  | .arr es => elemsHaveKey k es
  | .obj fs => fieldsHaveKey k fs
  | _ => false

def elemsHaveKey (k : String) : JsonElems → Bool
  | .nil => false
  | .cons v tl => jsonHasKey k v || elemsHaveKey k tl

def fieldsHaveKey (k : String) : JsonFields → Bool
  | .nil => false
  | .cons k' v tl => k' == k || jsonHasKey k v || fieldsHaveKey k tl
end

/-- Boolean equality on optional JSON values (for counting records sharing an id). -/
def optValBeq : Option JsonVal → Option JsonVal → Bool
  | none, none => true
  | some a, some b => jsonBeq a b
  | _, _ => false

/-- JavaScript property access `record[key]` on an object: first binding of the key
(models objects as association lists; objects produced by `JSON.parse`/`express.json`
have unique keys). `none` models `undefined`. -/
def fieldsLookup : JsonFields → String → Option JsonVal
  | .nil, _ => none
  | .cons k v tl, key => if k == key then some v else fieldsLookup tl key

/-- First half of the object spread `{ ...old, ...new }`: the fields of `old`, in
order, with the value replaced when `new` also binds the key. -/
def overwriteFields (newFields : JsonFields) : JsonFields → JsonFields
  | .nil => .nil
  | .cons k v tl => .cons k ((fieldsLookup newFields k).getD v) (overwriteFields newFields tl)

/-- Second half of the spread: fields of `new` whose key does not occur in `old`. -/
def filterNewFields (old : JsonFields) : JsonFields → JsonFields
  | .nil => .nil
  | .cons k v tl =>
    if (fieldsLookup old k).isSome then filterNewFields old tl
    else .cons k v (filterNewFields old tl)

def fieldsAppend : JsonFields → JsonFields → JsonFields
  | .nil, b => b
  | .cons k v tl, b => .cons k v (fieldsAppend tl b)

/-- JavaScript `{ ...old, ...body }` at the top level of two objects, as used by the
file-backed PUT handler (`pokemonsList[index] = { ...pokemonsList[index], ...updatedPokemon }`).
The same top-level semantics is produced by Mongoose's `findOneAndUpdate` with a
plain update document (cast to `$set` on each top-level field). -/
def jsMerge (old body : JsonFields) : JsonFields :=
  fieldsAppend (overwriteFields body old) (filterNewFields old body)

/-- Two records carry the same `id` value. -/
def sameId (a b : JsonFields) : Bool :=
  optValBeq (fieldsLookup a "id") (fieldsLookup b "id")

/-! ## Characters and numbers -/

/-- The quote character `"` (code 34). -/
def quoteChar : Char := Char.ofNat 34

/-- The backslash character (code 92). -/
def backslashChar : Char := Char.ofNat 92

/-- Opening curly brace (code 123). -/
def lcurly : Char := Char.ofNat 123

/-- Closing curly brace (code 125). -/
def rcurly : Char := Char.ofNat 125

/-- JSON/JavaScript whitespace (ASCII fragment: space, newline, tab, carriage return). -/
def isWsChar (c : Char) : Bool := c = ' ' || c = '\n' || c = '\t' || c = '\r'

/-- Drop leading whitespace. -/
def skipWs : List Char → List Char
  | [] => []
  | c :: cs => if isWsChar c then skipWs cs else c :: cs

/-- Trim whitespace from both ends (JavaScript `String.prototype.trim`, ASCII fragment). -/
def trimChars (cs : List Char) : List Char :=
  ((cs.dropWhile isWsChar).reverse.dropWhile isWsChar).reverse

/-- `trim` on strings (modelled on the character list so that it computes). -/
def trimStr (s : String) : String := String.mk (trimChars s.data)

/-- `toLowerCase` / Mongoose `lowercase: true`. -/
def lowerStr (s : String) : String := String.mk (s.data.map Char.toLower)

/-- The decimal digit character for `d < 10`. -/
def digitChar (d : Nat) : Char := Char.ofNat (48 + d)

/-- Lowercase hexadecimal digit character for `d < 16` (as emitted by `JSON.stringify`
in `\u00xx` escapes). -/
def hexDigitChar (d : Nat) : Char :=
  if d < 10 then Char.ofNat (48 + d) else Char.ofNat (87 + d)

/-- Value of a hexadecimal digit character, if it is one. -/
def hexVal (c : Char) : Option Nat :=
  if 48 ≤ c.toNat ∧ c.toNat ≤ 57 then some (c.toNat - 48)
  else if 97 ≤ c.toNat ∧ c.toNat ≤ 102 then some (c.toNat - 87)
  else if 65 ≤ c.toNat ∧ c.toNat ≤ 70 then some (c.toNat - 55)
  else none

/-- Digit characters of `n`, most significant first; fuel-indexed so that the
definition reduces definitionally (any `fuel ≥ n` computes the digits of `n`). -/
def natCharsAux : Nat → Nat → List Char
  | 0, _ => []
  | fuel + 1, n => if n = 0 then [] else natCharsAux fuel (n / 10) ++ [digitChar (n % 10)]

/-- Decimal digit characters of a natural number, most significant first
(`String(n)` / `JSON.stringify(n)` for a non-negative integral number). -/
def natChars (n : Nat) : List Char :=
  if n = 0 then ['0'] else natCharsAux n n

/-- Decimal digit characters of an integer, with sign. -/
def intChars (i : Int) : List Char :=
  if i < 0 then '-' :: natChars i.natAbs else natChars i.toNat

/-- The decimal string of an integer (as interpolated in a request path `/api/pokemons/<n>`). -/
def intToStr (i : Int) : String := String.mk (intChars i)

/-- Whether a character list starts with a decimal digit (used to state that parsing
a printed number does not run into the following text). -/
def headDigit : List Char → Bool
  | [] => false
  | c :: _ => c.isDigit

/-- Parse a maximal non-empty prefix of decimal digits, returning its value and the rest. -/
def parseNat (cs : List Char) : Option (Nat × List Char) :=
  let ds := cs.takeWhile Char.isDigit
  if ds.isEmpty then none
  else some (ds.foldl (fun acc c => acc * 10 + (c.toNat - 48)) 0, cs.dropWhile Char.isDigit)

/-- JavaScript `parseInt(s)` (decimal fragment: leading whitespace, optional sign,
maximal digit prefix; `none` models `NaN`; the hexadecimal `0x` prefix form is not
modelled). -/
def parseIntJs (s : String) : Option Int :=
  match s.data.dropWhile isWsChar with
  | [] => none
  | c :: rest =>
    if c = '-' then (parseNat rest).map (fun pr => -(pr.1 : Int))
    else if c = '+' then (parseNat rest).map (fun pr => (pr.1 : Int))
    else (parseNat (c :: rest)).map (fun pr => (pr.1 : Int))

/-- All-digit string value: `none` unless the whole (non-empty) list is decimal digits. -/
def allDigitsVal (cs : List Char) : Option Nat :=
  if cs.isEmpty then none
  else if cs.all Char.isDigit then
    some (cs.foldl (fun acc c => acc * 10 + (c.toNat - 48)) 0)
  else none

/-- JavaScript `ToNumber` on a string, integer-literal fragment (as invoked by the
loose equality `string == number`): trim whitespace, empty string is `0`, otherwise
an optionally signed run of decimal digits; anything else is `NaN` (`none`).
(Fractional, exponent and `0x` forms are outside the model's scope.) -/
def strToNumber (s : String) : Option Int :=
  match trimChars s.data with
  | [] => some 0
  | c :: rest =>
    if c = '-' then (allDigitsVal rest).map (fun n => -(n : Int))
    else if c = '+' then (allDigitsVal rest).map (fun n => (n : Int))
    else (allDigitsVal (c :: rest)).map (fun n => (n : Int))

/-! ## String escaping and JSON printing (`JSON.stringify(x, null, 2)`) -/

/-- `JSON.stringify` escaping of one character (quote, backslash, the named control
escapes, `\u00xx` for other control characters; all other characters unescaped). -/
def escapeChar (c : Char) : List Char :=
  if c = quoteChar then [backslashChar, quoteChar]
  else if c = backslashChar then [backslashChar, backslashChar]
  else if c = Char.ofNat 8 then [backslashChar, 'b']
  else if c = Char.ofNat 9 then [backslashChar, 't']
  else if c = Char.ofNat 10 then [backslashChar, 'n']
  else if c = Char.ofNat 12 then [backslashChar, 'f']
  else if c = Char.ofNat 13 then [backslashChar, 'r']
  else if c.toNat < 32 then
    [backslashChar, 'u', '0', '0', hexDigitChar (c.toNat / 16), hexDigitChar (c.toNat % 16)]
  else [c]

def escList : List Char → List Char
  | [] => []
  | c :: tl => escapeChar c ++ escList tl

/-- A JSON string literal: quote, escaped content, quote. -/
def quoteChars (s : String) : List Char := quoteChar :: (escList s.data ++ [quoteChar])

/-- `n` spaces of indentation. -/
def spaces (n : Nat) : List Char := List.replicate n ' '

mutual
/-- `JSON.stringify(v, null, 2)`: `ind` is the indentation depth of the line on which
the value starts; members are indented two further spaces, and the closing bracket
returns to depth `ind`. -/
def printV (ind : Nat) : JsonVal → List Char
  | .null => ['n', 'u', 'l', 'l']
  | .bool b => if b then ['t', 'r', 'u', 'e'] else ['f', 'a', 'l', 's', 'e']
  | .num n => intChars n
  | .str s => quoteChars s
  | .arr .nil => ['[', ']']
  | .arr (.cons v tl) => '[' :: '\n' :: (spaces (ind + 2) ++ printElems (ind + 2) ind (.cons v tl))
  | .obj .nil => [lcurly, rcurly]
  | .obj (.cons k v tl) => lcurly :: '\n' :: (spaces (ind + 2) ++ printFields (ind + 2) ind (.cons k v tl))

def printElems (indIn indOut : Nat) : JsonElems → List Char
  | .nil => [']']
  | .cons v .nil => printV indIn v ++ '\n' :: (spaces indOut ++ [']'])
  | .cons v (.cons w tl) =>
    printV indIn v ++ ',' :: '\n' :: (spaces indIn ++ printElems indIn indOut (.cons w tl))

def printFields (indIn indOut : Nat) : JsonFields → List Char
  | .nil => [rcurly]
  | .cons k v .nil => quoteChars k ++ ':' :: ' ' :: (printV indIn v ++ '\n' :: (spaces indOut ++ [rcurly]))
  | .cons k v (.cons k' w tl) =>
    quoteChars k ++ ':' :: ' ' :: (printV indIn v ++ ',' :: '\n' :: (spaces indIn ++ printFields indIn indOut (.cons k' w tl)))
end

mutual
/-- Structural size used as a fuel bound for the parser. -/
def jsizeV : JsonVal → Nat
  | .arr es => 1 + jsizeE es
  | .obj fs => 1 + jsizeF fs
  | _ => 1

def jsizeE : JsonElems → Nat
  | .nil => 1
  | .cons v tl => 1 + max (jsizeV v) (jsizeE tl)

def jsizeF : JsonFields → Nat
  | .nil => 1
  | .cons _ v tl => 1 + max (jsizeV v) (jsizeF tl)
end

/-! ## JSON parsing (`JSON.parse`) -/

/-- Decode a single-character escape (the inverse of the named escapes above;
also accepts `\/` as JSON does). -/
def unescapeChar (e : Char) : Option Char :=
  if e = quoteChar then some quoteChar
  else if e = backslashChar then some backslashChar
  else if e = '/' then some '/'
  else if e = 'b' then some (Char.ofNat 8)
  else if e = 't' then some (Char.ofNat 9)
  else if e = 'n' then some (Char.ofNat 10)
  else if e = 'f' then some (Char.ofNat 12)
  else if e = 'r' then some (Char.ofNat 13)
  else none

/-- Parse the body of a JSON string literal (after the opening quote), up to and
including the closing quote; returns the decoded characters and the rest. -/
def parseStrBody : List Char → Option (List Char × List Char)
  | [] => none
  | c :: rest =>
    if c = quoteChar then some ([], rest)
    else if c = backslashChar then
      match rest with
      | [] => none
      | e :: rest2 =>
        if e = 'u' then
          match rest2 with
          | h1 :: h2 :: h3 :: h4 :: rest3 =>
            match hexVal h1, hexVal h2, hexVal h3, hexVal h4 with
            | some v1, some v2, some v3, some v4 =>
              (parseStrBody rest3).map
                (fun pr => (Char.ofNat (((v1 * 16 + v2) * 16 + v3) * 16 + v4) :: pr.1, pr.2))
            | _, _, _, _ => none
          | _ => none
        else
          match unescapeChar e with
          | none => none
          | some c' => (parseStrBody rest2).map (fun pr => (c' :: pr.1, pr.2))
    else (parseStrBody rest).map (fun pr => (c :: pr.1, pr.2))

mutual
/-- Fuel-indexed JSON value parser (a model of `JSON.parse`; the fuel only bounds
the nesting of the recursion and is immaterial once large enough). -/
def parseVal : Nat → List Char → Option (JsonVal × List Char)
  | 0, _ => none
  | fuel + 1, cs =>
    match skipWs cs with
    | [] => none
    | c :: rest =>
      if c = 'n' then
        if rest.take 3 = ['u', 'l', 'l'] then some (.null, rest.drop 3) else none
      else if c = 't' then
        if rest.take 3 = ['r', 'u', 'e'] then some (.bool true, rest.drop 3) else none
      else if c = 'f' then
        if rest.take 4 = ['a', 'l', 's', 'e'] then some (.bool false, rest.drop 4) else none
      else if c = quoteChar then
        match parseStrBody rest with
        | none => none
        | some (s, r) => some (.str (String.mk s), r)
      else if c = '[' then
        match skipWs rest with
        | [] => none
        | c1 :: r1 =>
          if c1 = ']' then some (.arr .nil, r1)
          else
            match parseElems fuel (c1 :: r1) with
            | none => none
            | some (es, r) => some (.arr es, r)
      else if c = lcurly then
        match skipWs rest with
        | [] => none
        | c1 :: r1 =>
          if c1 = rcurly then some (.obj .nil, r1)
          else
            match parseFields fuel (c1 :: r1) with
            | none => none
            | some (fs, r) => some (.obj fs, r)
      else if c = '-' then (parseNat rest).map (fun pr => (.num (-(pr.1 : Int)), pr.2))
      else if c.isDigit then (parseNat (c :: rest)).map (fun pr => (.num (pr.1 : Int), pr.2))
      else none

def parseElems : Nat → List Char → Option (JsonElems × List Char)
  | 0, _ => none
  | fuel + 1, cs =>
    match parseVal fuel cs with
    | none => none
    | some (v, r) =>
      match skipWs r with
      | [] => none
      | c :: r2 =>
        if c = ',' then
          match parseElems fuel r2 with
          | none => none
          | some (es, r3) => some (.cons v es, r3)
        else if c = ']' then some (.cons v .nil, r2)
        else none

def parseFields : Nat → List Char → Option (JsonFields × List Char)
  | 0, _ => none
  | fuel + 1, cs =>
    match skipWs cs with
    | [] => none
    | c :: r =>
      if c = quoteChar then
        match parseStrBody r with
        | none => none
        | some (k, r1) =>
          match skipWs r1 with
          | [] => none
          | c2 :: r2 =>
            if c2 = ':' then
              match parseVal fuel r2 with
              | none => none
              | some (v, r3) =>
                match skipWs r3 with
                | [] => none
                | c3 :: r4 =>
                  if c3 = ',' then
                    match parseFields fuel r4 with
                    | none => none
                    | some (fs, r5) => some (.cons (String.mk k) v fs, r5)
                  else if c3 = rcurly then some (.cons (String.mk k) v .nil, r4)
                  else none
            else none
      else none
end

/-- `JSON.parse` of a whole text: one value, then nothing but trailing whitespace. -/
def parseJson (cs : List Char) : Option JsonVal :=
  match parseVal (cs.length + 1) cs with
  | none => none
  | some (v, rest) => if skipWs rest = [] then some v else none

/-! ## The record store (both variants) -/

/-- Convert a Lean list of records to a JSON array value (for serialization). -/
def elemsOfObjs : List JsonFields → JsonElems
  | [] => .nil
  | p :: tl => .cons (.obj p) (elemsOfObjs tl)

/-- Inverse direction: a JSON array whose elements are all objects. -/
def elemsToObjs : JsonElems → Option (List JsonFields)
  | .nil => some []
  | .cons (.obj p) tl => (elemsToObjs tl).map (fun l => p :: l)
  | .cons _ _ => none

/-- The text written by `fs.writeFileSync(filePath, JSON.stringify(pokemonsList, null, 2))`. -/
def printTop (l : List JsonFields) : List Char := printV 0 (.arr (elemsOfObjs l))

/-- Re-reading the backing file as a list of records. -/
def parseTopList (cs : List Char) : Option (List JsonFields) :=
  match parseJson cs with
  | some (.arr es) => elemsToObjs es
  | _ => none

/-- JavaScript `p.id === id` where `id` is the number produced by `parseInt`
(`none` standing for `NaN`, which `===` never equals). Used by the file-backed
GET and DELETE handlers, and (as exact match on the `Number`-typed `id` path) by
the Mongo queries `{ id: id }`. -/
def idStrictEq (p : JsonFields) (pid : Option Int) : Bool :=
  match fieldsLookup p "id", pid with
  | some (.num m), some n => m == n
  | _, _ => false

/-- JavaScript `p.id == id` (loose equality) against the `parseInt` result, as used by
the file-backed PUT handler's `findIndex(p => p.id == id)`. A string id is coerced
with `ToNumber`, a boolean to `0`/`1`; `null`, `undefined` and `NaN` never match.
(Object/array operand coercion is outside the model's scope.) -/
def idLooseEq (p : JsonFields) (pid : Option Int) : Bool :=
  match fieldsLookup p "id", pid with
  | some (.num m), some n => m == n
  | some (.str s), some n =>
    match strToNumber s with
    | some m => m == n
    | none => false
  | some (.bool b), some n => (if b then (1 : Int) else 0) == n
  | _, _ => false

/-- `findIndex` + in-place replacement by `f`: returns the new list and the new
element, or `none` when no element satisfies the predicate. -/
def updateFirst (pred : JsonFields → Bool) (f : JsonFields → JsonFields) :
    List JsonFields → Option (List JsonFields × JsonFields)
  | [] => none
  | p :: rest =>
    if pred p then some (f p :: rest, f p)
    else (updateFirst pred f rest).map (fun pr => (p :: pr.1, pr.2))

/-- `findIndex` + `splice(index, 1)`: returns the remaining list and the removed
element, or `none` when no element satisfies the predicate. -/
def removeFirst (pred : JsonFields → Bool) :
    List JsonFields → Option (List JsonFields × JsonFields)
  | [] => none
  | p :: rest =>
    if pred p then some (rest, p)
    else (removeFirst pred rest).map (fun pr => (p :: pr.1, pr.2))

/-- Response of a single-record route: status, optional `message` field, optional
`pokemon` payload (for GET the record itself is the body). -/
structure PokeResponse where
  status : Nat
  message : Option String
  pokemon : Option JsonFields

/-- The fixed 404 response `{ message: "Pokémon non trouvé." }`. -/
def notFoundResp : PokeResponse := ⟨404, some "Pokémon non trouvé.", none⟩

/-- File-backed `GET /api/pokemons/:id`: `parseInt`, `find(p => p.id === id)`,
404 when absent, otherwise the record with status 200. -/
def fileGetPokemon (st : List JsonFields) (idStr : String) : PokeResponse :=
  match st.find? (fun p => idStrictEq p (parseIntJs idStr)) with
  | none => notFoundResp
  | some p => ⟨200, none, some p⟩

/-- File-backed `POST /api/pokemons`: unconditionally `push` the body and answer 201. -/
def filePostPokemon (st : List JsonFields) (body : JsonFields) :
    List JsonFields × PokeResponse :=
  (st ++ [body], ⟨201, some "Pokémon ajouté avec succès.", some body⟩)

/-- File-backed `PUT /api/pokemons/:id`: `findIndex(p => p.id == id)` (loose equality),
404 when absent, otherwise replace the slot with `{ ...old, ...body }` and answer 200
with the updated record. -/
def filePutPokemon (st : List JsonFields) (idStr : String) (body : JsonFields) :
    List JsonFields × PokeResponse :=
  match updateFirst (fun p => idLooseEq p (parseIntJs idStr)) (fun p => jsMerge p body) st with
  | none => (st, notFoundResp)
  | some (st', u) => (st', ⟨200, some "Pokémon mis à jour avec succès.", some u⟩)

/-- File-backed `DELETE /api/pokemons/:id`: `findIndex(p => p.id === id)` (strict),
404 when absent, otherwise `splice` it out and answer 200 with the removed record. -/
def fileDeletePokemon (st : List JsonFields) (idStr : String) :
    List JsonFields × PokeResponse :=
  match removeFirst (fun p => idStrictEq p (parseIntJs idStr)) st with
  | none => (st, notFoundResp)
  | some (st', p) => (st', ⟨200, some "Pokémon supprimé avec succès.", some p⟩)

/-- Mongo-backed `GET /api/pokemons/:id`: `Pokemon.findOne({ id })`. -/
def mongoGetPokemon (st : List JsonFields) (idStr : String) : PokeResponse :=
  match st.find? (fun p => idStrictEq p (parseIntJs idStr)) with
  | none => notFoundResp
  | some p => ⟨200, none, some p⟩

/-- Mongo-backed `PUT /api/pokemons/:id`: `findOneAndUpdate({ id }, body, { new: true })`;
Mongoose casts the plain update document to `$set` on each top-level field, i.e. a
shallow merge, and returns the post-update document. -/
def mongoPutPokemon (st : List JsonFields) (idStr : String) (body : JsonFields) :
    List JsonFields × PokeResponse :=
  match updateFirst (fun p => idStrictEq p (parseIntJs idStr)) (fun p => jsMerge p body) st with
  | none => (st, notFoundResp)
  | some (st', u) => (st', ⟨200, some "Pokémon mis à jour avec succès.", some u⟩)

/-- Mongo-backed `DELETE /api/pokemons/:id`: `findOneAndDelete({ id })`. -/
def mongoDeletePokemon (st : List JsonFields) (idStr : String) :
    List JsonFields × PokeResponse :=
  match removeFirst (fun p => idStrictEq p (parseIntJs idStr)) st with
  | none => (st, notFoundResp)
  | some (st', p) => (st', ⟨200, some "Pokémon supprimé avec succès.", some p⟩)

/-! ## File-backed server state (in-memory list plus backing file) -/

/-- The file-backed variant's mutable state: the in-memory `pokemonsList` and the
text content of `data/pokemons.json`. -/
structure ServerState where
  mem : List JsonFields
  disk : List Char

/-- One request against the record-store routes. -/
inductive ApiRequest where
  | getAll
  | getOne (idStr : String)
  | create (body : JsonFields)
  | update (idStr : String) (body : JsonFields)
  | remove (idStr : String)

/-- State transition of the file-backed server: GETs never touch state; POST pushes
and rewrites the file; PUT and DELETE rewrite the file only on their success path
(the 404 early-return skips `writeFileSync`). -/
def stepServer (s : ServerState) : ApiRequest → ServerState
  | .getAll => s
  | .getOne _ => s
  | .create body =>
    let mem' := s.mem ++ [body]
    ⟨mem', printTop mem'⟩
  | .update idStr body =>
    match updateFirst (fun p => idLooseEq p (parseIntJs idStr)) (fun p => jsMerge p body) s.mem with
    | none => s
    | some (mem', _) => ⟨mem', printTop mem'⟩
  | .remove idStr =>
    match removeFirst (fun p => idStrictEq p (parseIntJs idStr)) s.mem with
    | none => s
    | some (mem', _) => ⟨mem', printTop mem'⟩

/-- The file-mirror invariant: re-parsing the backing file yields the in-memory list. -/
def diskMirrors (s : ServerState) : Prop := parseTopList s.disk = some s.mem

/-! ## Regular expressions by Brzozowski derivatives (for the Mongoose email `match`) -/

inductive Rx where
  | emp
  | eps
  | chr (p : Char → Bool)
  | cat (a b : Rx)
  | alt (a b : Rx)
  | star (a : Rx)

def Rx.nullable : Rx → Bool
  | .emp => false
  | .eps => true
  | .chr _ => false
  | .cat a b => a.nullable && b.nullable
  | .alt a b => a.nullable || b.nullable
  | .star _ => true

def Rx.deriv : Rx → Char → Rx
  | .emp, _ => .emp
  | .eps, _ => .emp
  | .chr p, c => if p c then .eps else .emp
  | .cat a b, c =>
    if a.nullable then .alt (.cat (a.deriv c) b) (b.deriv c) else .cat (a.deriv c) b
  | .alt a b, c => .alt (a.deriv c) (b.deriv c)
  | .star a, c => .cat (a.deriv c) (.star a)

/-- Anchored match of the whole character list. -/
def rxMatch : Rx → List Char → Bool
  | r, [] => r.nullable
  | r, c :: cs => rxMatch (r.deriv c) cs

def rxPlus (r : Rx) : Rx := .cat r (.star r)

def rxOpt (r : Rx) : Rx := .alt r .eps

/-- JavaScript `\w`: ASCII letters, digits, underscore. -/
def wordCharB (c : Char) : Bool := c.isAlphanum || c = '_'

/-- `\w+([.-]?\w+)*` — one dot-or-dash-separated word part. -/
def wordPartRx : Rx :=
  .cat (rxPlus (.chr wordCharB))
    (.star (.cat (rxOpt (.chr (fun c => c = '.' || c = '-'))) (rxPlus (.chr wordCharB))))

/-- `\.\w{2,3}` — a dot followed by two or three word characters. -/
def tldRx : Rx :=
  .cat (.chr (fun c => c = '.'))
    (.cat (.chr wordCharB) (.cat (.chr wordCharB) (rxOpt (.chr wordCharB))))

/-- The user schema's email pattern `/^\w+([.-]?\w+)*@\w+([.-]?\w+)*(\.\w{2,3})+$/`. -/
def emailRx : Rx :=
  .cat wordPartRx (.cat (.chr (fun c => c = '@')) (.cat wordPartRx (rxPlus tldRx)))

def emailMatches (s : String) : Bool := rxMatch emailRx s.data

/-! ## Auth handlers (Mongo variant) -/

/-- A stored user document: Mongo `_id` and `createdAt` modelled as naturals,
`password` holding the bcrypt hash. -/
structure UserDoc where
  uid : Nat
  username : String
  email : String
  password : String
  createdAt : Nat

/-- Mongoose validation of a user document at `save()` time, applied to the values
after setters (`trim` on username, `trim`+`lowercase` on email; the stored password
is the bcrypt hash). For each path, `required` fires before the other validators;
messages are collected in schema path order and the handler joins them with a comma. -/
def userValidationErrors (username email password : String) : List String :=
  (if username = "" then ["Le nom d\x27utilisateur est obligatoire"]
   else if username.length < 3 then
     ["Le nom d\x27utilisateur doit contenir au moins 3 caractères"]
   else []) ++
  (if email = "" then ["L\x27adresse email est obligatoire"]
   else if emailMatches email = false then ["Veuillez fournir une adresse email valide"]
   else []) ++
  (if password = "" then ["Le mot de passe est obligatoire"]
   else if password.length < 6 then ["Le mot de passe doit contenir au moins 6 caractères"]
   else [])

/-- Outcome of an auth route: the (possibly extended) user collection, the HTTP
status, and the JSON response body. -/
structure AuthResult where
  store : List UserDoc
  status : Nat
  body : JsonVal

/-- The sanitized user object `{ id, username, email, createdAt }` returned on
successful register/login — built explicitly without the password field. -/
def sanitizedUser (u : UserDoc) : JsonVal :=
  .obj (.cons "id" (.num u.uid)
    (.cons "username" (.str u.username)
      (.cons "email" (.str u.email)
        (.cons "createdAt" (.num u.createdAt) .nil))))

/-- A bare `{ message }` body. -/
def msgBody (m : String) : JsonVal := .obj (.cons "message" (.str m) .nil)

/-- `POST /auth/register`. `hash` abstracts `bcrypt.hash(password, salt)` (bcrypt
output is a 60-character hash string); `now` abstracts `Date.now()`; the fresh
`_id` is modelled as the collection size. Control flow follows the handler:
presence check, `findOne({ email })`, `findOne({ username })`, hash, `save()` with
schema validation, duplicate-key translation (`Ce <field> est déjà utilisé`),
then 201 with the sanitized user. -/
def register (hash : String → String) (now : Nat) (st : List UserDoc)
    (username email password : String) : AuthResult :=
  if username = "" || email = "" || password = "" then
    ⟨st, 400, msgBody "Tous les champs sont obligatoires"⟩
  else
    match st.find? (fun u => u.email == email) with
    | some _ => ⟨st, 400, msgBody "Cette adresse email est déjà utilisée"⟩
    | none =>
      match st.find? (fun u => u.username == username) with
      | some _ => ⟨st, 400, msgBody "Ce nom d\x27utilisateur est déjà pris"⟩
      | none =>
        let hashed := hash password
        let uname := trimStr username
        let mail := lowerStr (trimStr email)
        match userValidationErrors uname mail hashed with
        | [] =>
          if st.any (fun u => u.email == mail) then
            ⟨st, 400, msgBody "Ce email est déjà utilisé"⟩
          else if st.any (fun u => u.username == uname) then
            ⟨st, 400, msgBody "Ce username est déjà utilisé"⟩
          else
            let u : UserDoc := ⟨st.length, uname, mail, hashed, now⟩
            ⟨st ++ [u], 201,
              .obj (.cons "message" (.str "Compte créé avec succès")
                (.cons "user" (sanitizedUser u) .nil))⟩
        | errs => ⟨st, 400, msgBody (String.intercalate ", " errs)⟩

/-- `POST /auth/login`. `compare` abstracts `bcrypt.compare(password, storedHash)`.
Presence check, `findOne({ email })`; a missing account and a failed hash comparison
both answer 401 with the same generic message; success answers 200 with the
sanitized user. -/
def login (compare : String → String → Bool) (st : List UserDoc)
    (email password : String) : Nat × JsonVal :=
  if email = "" || password = "" then (400, msgBody "Tous les champs sont obligatoires")
  else
    match st.find? (fun u => u.email == email) with
    | none => (401, msgBody "Email ou mot de passe incorrect")
    | some u =>
      if compare password u.password then
        (200, .obj (.cons "message" (.str "Connexion réussie")
          (.cons "user" (sanitizedUser u) .nil)))
      else (401, msgBody "Email ou mot de passe incorrect")

/-! # Theorems

Helper lemmas first (whitespace, digits, string escaping, the print/parse
roundtrip, store and merge lemmas), then one theorem per specification claim,
each followed by a concrete witness instance when it has hypotheses. -/

theorem skipWs_cons_not {c : Char} (cs : List Char) (h : isWsChar c = false) :
    skipWs (c :: cs) = c :: cs := by
  simp [skipWs, h]

theorem skipWs_cons_ws {c : Char} (cs : List Char) (h : isWsChar c = true) :
    skipWs (c :: cs) = skipWs cs := by
  simp [skipWs, h]

theorem skipWs_spaces (n : Nat) (cs : List Char) : skipWs (spaces n ++ cs) = skipWs cs := by
  induction n with
  | zero => simp [spaces]
  | succ n ih =>
    have : spaces (n + 1) ++ cs = ' ' :: (spaces n ++ cs) := by
      simp [spaces, List.replicate_succ]
    rw [this, skipWs_cons_ws _ (by decide), ih]

/-- A decimal digit is none of the characters the JSON parser dispatches on,
nor whitespace. -/
theorem not_special_of_isDigit {c : Char} (h : c.isDigit = true) :
    c ≠ 'n' ∧ c ≠ 't' ∧ c ≠ 'f' ∧ c ≠ quoteChar ∧ c ≠ '[' ∧ c ≠ lcurly ∧
    c ≠ '-' ∧ c ≠ '+' ∧ c ≠ ':' ∧ c ≠ ',' ∧ c ≠ ']' ∧ c ≠ rcurly ∧ isWsChar c = false := by
  refine ⟨?_, ?_, ?_, ?_, ?_, ?_, ?_, ?_, ?_, ?_, ?_, ?_, ?_⟩
  case _ => rintro rfl; exact absurd h (by decide)
  case _ => rintro rfl; exact absurd h (by decide)
  case _ => rintro rfl; exact absurd h (by decide)
  case _ => rintro rfl; exact absurd h (by decide)
  case _ => rintro rfl; exact absurd h (by decide)
  case _ => rintro rfl; exact absurd h (by decide)
  case _ => rintro rfl; exact absurd h (by decide)
  case _ => rintro rfl; exact absurd h (by decide)
  case _ => rintro rfl; exact absurd h (by decide)
  case _ => rintro rfl; exact absurd h (by decide)
  case _ => rintro rfl; exact absurd h (by decide)
  case _ => rintro rfl; exact absurd h (by decide)
  case _ =>
    by_contra hw
    have hw' : isWsChar c = true := by
      cases hws : isWsChar c
      · exact absurd hws hw
      · rfl
    have : c = ' ' ∨ c = '\n' ∨ c = '\t' ∨ c = '\r' := by
      simpa [isWsChar, or_assoc] using hw'
    rcases this with rfl | rfl | rfl | rfl <;> exact absurd h (by decide)

theorem natCharsAux_zero (fuel : Nat) : natCharsAux fuel 0 = [] := by
  cases fuel <;> simp [natCharsAux]

theorem natCharsAux_eq (fuel : Nat) :
    ∀ n : Nat, n ≤ fuel → n ≠ 0 →
      natCharsAux fuel n = (Nat.digits 10 n).reverse.map digitChar := by
  induction fuel with
  | zero => intro n hle hne; omega
  | succ fuel ih =>
    intro n hle hne
    rw [natCharsAux, if_neg hne,
      Nat.digits_def' (by norm_num : (1 : Nat) < 10) (Nat.pos_of_ne_zero hne),
      List.reverse_cons, List.map_append]
    by_cases h10 : n / 10 = 0
    · rw [h10, natCharsAux_zero]
      simp
    · rw [ih (n / 10) (by omega) h10]
      simp

theorem digitChar_isDigit : ∀ d, d < 10 → (digitChar d).isDigit = true := by decide

theorem digitChar_toNat : ∀ d, d < 10 → (digitChar d).toNat - 48 = d := by decide

theorem natChars_all_digits (n : Nat) : (natChars n).all Char.isDigit = true := by
  by_cases h : n = 0
  · subst h; decide
  · rw [natChars, if_neg h, natCharsAux_eq n n le_rfl h] at *
    rw [List.all_eq_true]
    intro c hc
    obtain ⟨d, hd, rfl⟩ := List.mem_map.mp hc
    exact digitChar_isDigit d
      (Nat.digits_lt_base (by norm_num) (List.mem_reverse.mp hd))

theorem natChars_ne_nil (n : Nat) : natChars n ≠ [] := by
  by_cases h : n = 0
  · simp [natChars, h]
  · rw [natChars, if_neg h, natCharsAux_eq n n le_rfl h]
    simp [Nat.digits_ne_nil_iff_ne_zero.mpr h]

theorem foldr_digits (L : List Nat) (h : ∀ d ∈ L, d < 10) :
    L.foldr (fun d y => y * 10 + ((digitChar d).toNat - 48)) 0 = Nat.ofDigits 10 L := by
  induction L with
  | nil => simp [Nat.ofDigits_nil]
  | cons d tl ih =>
    have hd : d < 10 := h d (by simp)
    have htl : ∀ x ∈ tl, x < 10 := fun x hx => h x (by simp [hx])
    simp only [List.foldr_cons, ih htl, Nat.ofDigits_cons, digitChar_toNat d hd]
    ring

theorem natChars_foldl (n : Nat) :
    (natChars n).foldl (fun acc c => acc * 10 + (c.toNat - 48)) 0 = n := by
  by_cases h : n = 0
  · subst h; decide
  · rw [natChars, if_neg h, natCharsAux_eq n n le_rfl h, List.map_reverse,
      List.foldl_reverse, List.foldr_map]
    have := foldr_digits (Nat.digits 10 n)
      (fun d hd => Nat.digits_lt_base (by norm_num) hd)
    rw [this, Nat.ofDigits_digits]

theorem takeWhile_digits_append (l rest : List Char)
    (hl : l.all Char.isDigit = true) (hr : headDigit rest = false) :
    (l ++ rest).takeWhile Char.isDigit = l ∧ (l ++ rest).dropWhile Char.isDigit = rest := by
  induction l with
  | nil =>
    cases rest with
    | nil => simp
    | cons c tl =>
      have hc : c.isDigit = false := by simpa [headDigit] using hr
      simp [List.takeWhile_cons, List.dropWhile_cons, hc]
  | cons c tl ih =>
    have hc : c.isDigit = true := by
      have := List.all_eq_true.mp hl c (by simp)
      simpa using this
    have htl : tl.all Char.isDigit = true := by
      rw [List.all_eq_true]
      intro x hx
      exact List.all_eq_true.mp hl x (by simp [hx])
    obtain ⟨h1, h2⟩ := ih htl
    simp [List.takeWhile_cons, List.dropWhile_cons, hc, h1, h2]

theorem parseNat_natChars (n : Nat) (rest : List Char) (hr : headDigit rest = false) :
    parseNat (natChars n ++ rest) = some (n, rest) := by
  obtain ⟨h1, h2⟩ := takeWhile_digits_append (natChars n) rest (natChars_all_digits n) hr
  simp only [parseNat, h1, h2]
  rw [if_neg (by simpa using natChars_ne_nil n)]
  rw [natChars_foldl]

theorem isDigit_not_ws {c : Char} (h : c.isDigit = true) : isWsChar c = false :=
  (not_special_of_isDigit h).2.2.2.2.2.2.2.2.2.2.2.2

theorem intChars_no_ws (i : Int) : ∀ c ∈ intChars i, isWsChar c = false := by
  intro c hc
  rw [intChars] at hc
  by_cases hi : i < 0
  · rw [if_pos hi] at hc
    rcases List.mem_cons.mp hc with rfl | hmem
    · decide
    · exact isDigit_not_ws (by simpa using List.all_eq_true.mp (natChars_all_digits _) c hmem)
  · rw [if_neg hi] at hc
    exact isDigit_not_ws (by simpa using List.all_eq_true.mp (natChars_all_digits _) c hc)

theorem parseNat_natChars_nil (n : Nat) : parseNat (natChars n) = some (n, []) := by
  have h := parseNat_natChars n [] (by decide)
  simpa using h

theorem parseIntJs_intToStr (i : Int) : parseIntJs (intToStr i) = some i := by
  have hdata : (intToStr i).data = intChars i := rfl
  by_cases hi : i < 0
  · have hdrop : (intChars i).dropWhile isWsChar = '-' :: natChars i.natAbs := by
      rw [intChars, if_pos hi, List.dropWhile_cons, if_neg (by decide)]
    simp only [parseIntJs, hdata, hdrop]
    simp [parseNat_natChars_nil]
    rw [abs_of_neg hi, neg_neg]
  · obtain ⟨c, tl, hct⟩ : ∃ c tl, natChars i.toNat = c :: tl := by
      cases h : natChars i.toNat with
      | nil => exact absurd h (natChars_ne_nil _)
      | cons c tl => exact ⟨c, tl, rfl⟩
    have hcd : c.isDigit = true := by
      have := List.all_eq_true.mp (natChars_all_digits i.toNat) c (by rw [hct]; simp)
      simpa using this
    obtain ⟨_, _, _, _, _, _, hm, hp, _⟩ := not_special_of_isDigit hcd
    have hdrop : (intChars i).dropWhile isWsChar = c :: tl := by
      rw [intChars, if_neg hi, hct, List.dropWhile_cons, if_neg (by simp [isDigit_not_ws hcd])]
    have hpn : parseNat (c :: tl) = some (i.toNat, []) := by
      rw [← hct]
      exact parseNat_natChars_nil _
    simp only [parseIntJs, hdata, hdrop]
    simp [hm, hp, hpn]
    omega

theorem dropWhile_no_ws (l : List Char) (h : ∀ c ∈ l, isWsChar c = false) :
    l.dropWhile isWsChar = l := by
  cases l with
  | nil => rfl
  | cons c tl => simp [List.dropWhile_cons, h c (by simp)]

theorem trimChars_no_ws (l : List Char) (h : ∀ c ∈ l, isWsChar c = false) :
    trimChars l = l := by
  rw [trimChars, dropWhile_no_ws l h,
    dropWhile_no_ws l.reverse (fun c hc => h c (List.mem_reverse.mp hc)), List.reverse_reverse]

theorem allDigitsVal_natChars (n : Nat) : allDigitsVal (natChars n) = some n := by
  rw [allDigitsVal, if_neg (by simpa using natChars_ne_nil n),
    if_pos (natChars_all_digits n), natChars_foldl]

theorem strToNumber_intToStr (i : Int) : strToNumber (intToStr i) = some i := by
  have hdata : (intToStr i).data = intChars i := rfl
  by_cases hi : i < 0
  · have htr : trimChars (intToStr i).data = '-' :: natChars i.natAbs := by
      rw [hdata, trimChars_no_ws _ (intChars_no_ws i), intChars, if_pos hi]
    simp only [strToNumber, htr]
    simp [allDigitsVal_natChars]
    rw [abs_of_neg hi, neg_neg]
  · obtain ⟨c, tl, hct⟩ : ∃ c tl, natChars i.toNat = c :: tl := by
      cases h : natChars i.toNat with
      | nil => exact absurd h (natChars_ne_nil _)
      | cons c tl => exact ⟨c, tl, rfl⟩
    have hcd : c.isDigit = true := by
      have := List.all_eq_true.mp (natChars_all_digits i.toNat) c (by rw [hct]; simp)
      simpa using this
    obtain ⟨_, _, _, _, _, _, hm, hp, _⟩ := not_special_of_isDigit hcd
    have htr : trimChars (intToStr i).data = c :: tl := by
      rw [hdata, trimChars_no_ws _ (intChars_no_ws i), intChars, if_neg hi, hct]
    have hadv : allDigitsVal (c :: tl) = some i.toNat := by
      rw [← hct]
      exact allDigitsVal_natChars _
    simp only [strToNumber, htr]
    simp [hm, hp, hadv]
    omega

theorem hexVal_hexDigitChar : ∀ d, d < 16 → hexVal (hexDigitChar d) = some d := by decide

theorem escapeChar_quote : escapeChar quoteChar = [backslashChar, quoteChar] := by decide

theorem escapeChar_bs : escapeChar backslashChar = [backslashChar, backslashChar] := by decide

theorem unescapeChar_quote : unescapeChar quoteChar = some quoteChar := by decide

theorem unescapeChar_bs : unescapeChar backslashChar = some backslashChar := by decide

/-- Parsing a `\u00xx` escape (as printed for a control character) yields that character. -/
theorem parse_u_escape (c : Char) (h8 : c.toNat < 32) (restAll : List Char) :
    parseStrBody (backslashChar :: 'u' :: '0' :: '0' ::
        hexDigitChar (c.toNat / 16) :: hexDigitChar (c.toNat % 16) :: restAll)
      = (parseStrBody restAll).map (fun pr => (c :: pr.1, pr.2)) := by
  have hdiv : c.toNat / 16 < 16 := by omega
  have hmod : c.toNat % 16 < 16 := by omega
  have hchar1 : Char.ofNat (((0 * 16 + 0) * 16 + c.toNat / 16) * 16 + c.toNat % 16) = c := by
    rw [show ((0 * 16 + 0) * 16 + c.toNat / 16) * 16 + c.toNat % 16 = c.toNat from by omega,
      Char.ofNat_toNat]
  have hchar2 : Char.ofNat (c.toNat / 16 * 16 + c.toNat % 16) = c := by
    rw [show c.toNat / 16 * 16 + c.toNat % 16 = c.toNat from by omega, Char.ofNat_toNat]
  rw [parseStrBody.eq_def]
  simp [(by decide : ¬ backslashChar = quoteChar),
    (by decide : hexVal '0' = some 0),
    hexVal_hexDigitChar _ hdiv, hexVal_hexDigitChar _ hmod, hchar1, hchar2]

/-- Round trip of `JSON.stringify` string escaping through the string-body parser. -/
theorem parseStrBody_escList (cs rest : List Char) :
    parseStrBody (escList cs ++ (quoteChar :: rest)) = some (cs, rest) := by
  have hbq : backslashChar ≠ quoteChar := by decide
  induction cs with
  | nil =>
    rw [show escList [] ++ (quoteChar :: rest) = quoteChar :: rest from by simp [escList],
      parseStrBody.eq_def]
    simp
  | cons c tl ih =>
    rw [escList, List.append_assoc]
    by_cases h1 : c = quoteChar
    · subst h1
      rw [escapeChar_quote]
      simp only [List.cons_append, List.nil_append]
      rw [parseStrBody.eq_def]
      simp [hbq, (by decide : quoteChar ≠ 'u'), unescapeChar_quote, ih]
    · by_cases h2 : c = backslashChar
      · subst h2
        rw [escapeChar_bs]
        simp only [List.cons_append, List.nil_append]
        rw [parseStrBody.eq_def]
        simp [hbq, (by decide : backslashChar ≠ 'u'), unescapeChar_bs, ih]
      · by_cases h3 : c = Char.ofNat 8
        · subst h3
          rw [show escapeChar (Char.ofNat 8) = [backslashChar, 'b'] from by decide]
          simp only [List.cons_append, List.nil_append]
          rw [parseStrBody.eq_def]
          simp [hbq, (by decide : ('b' : Char) ≠ 'u'),
            (by decide : unescapeChar 'b' = some (Char.ofNat 8)), ih]
        · by_cases h4 : c = Char.ofNat 9
          · subst h4
            rw [show escapeChar (Char.ofNat 9) = [backslashChar, 't'] from by decide]
            simp only [List.cons_append, List.nil_append]
            rw [parseStrBody.eq_def]
            simp [hbq, (by decide : ('t' : Char) ≠ 'u'),
              (by decide : unescapeChar 't' = some (Char.ofNat 9)), ih]
          · by_cases h5 : c = Char.ofNat 10
            · subst h5
              rw [show escapeChar (Char.ofNat 10) = [backslashChar, 'n'] from by decide]
              simp only [List.cons_append, List.nil_append]
              rw [parseStrBody.eq_def]
              simp [hbq, (by decide : ('n' : Char) ≠ 'u'),
                (by decide : unescapeChar 'n' = some (Char.ofNat 10)), ih]
            · by_cases h6 : c = Char.ofNat 12
              · subst h6
                rw [show escapeChar (Char.ofNat 12) = [backslashChar, 'f'] from by decide]
                simp only [List.cons_append, List.nil_append]
                rw [parseStrBody.eq_def]
                simp [hbq, (by decide : ('f' : Char) ≠ 'u'),
                  (by decide : unescapeChar 'f' = some (Char.ofNat 12)), ih]
              · by_cases h7 : c = Char.ofNat 13
                · subst h7
                  rw [show escapeChar (Char.ofNat 13) = [backslashChar, 'r'] from by decide]
                  simp only [List.cons_append, List.nil_append]
                  rw [parseStrBody.eq_def]
                  simp [hbq, (by decide : ('r' : Char) ≠ 'u'),
                    (by decide : unescapeChar 'r' = some (Char.ofNat 13)), ih]
                · by_cases h8 : c.toNat < 32
                  · rw [escapeChar, if_neg h1, if_neg h2, if_neg h3, if_neg h4, if_neg h5,
                      if_neg h6, if_neg h7, if_pos h8]
                    simp only [List.cons_append, List.nil_append]
                    rw [parse_u_escape c h8, ih]
                    rfl
                  · rw [escapeChar, if_neg h1, if_neg h2, if_neg h3, if_neg h4, if_neg h5,
                      if_neg h6, if_neg h7, if_neg h8]
                    simp only [List.cons_append, List.nil_append]
                    rw [parseStrBody.eq_def]
                    simp [h1, h2, ih]

theorem stringMk_data (s : String) : String.mk s.data = s := by
  cases s
  rfl

theorem skipWs_append_wsOnly (pre cs : List Char) (h : ∀ c ∈ pre, isWsChar c = true) :
    skipWs (pre ++ cs) = skipWs cs := by
  induction pre with
  | nil => rfl
  | cons c tl ih =>
    rw [List.cons_append, skipWs_cons_ws _ (h c (by simp)), ih (fun x hx => h x (by simp [hx]))]

theorem printV_null (ind : Nat) : printV ind JsonVal.null = ['n', 'u', 'l', 'l'] := rfl

theorem printV_bool (ind : Nat) (b : Bool) :
    printV ind (JsonVal.bool b) = if b then ['t', 'r', 'u', 'e'] else ['f', 'a', 'l', 's', 'e'] := by
  cases b <;> rfl

theorem printV_num (ind : Nat) (n : Int) : printV ind (JsonVal.num n) = intChars n := rfl

theorem printV_str (ind : Nat) (s : String) : printV ind (JsonVal.str s) = quoteChars s := rfl

theorem printV_arrNil (ind : Nat) : printV ind (JsonVal.arr JsonElems.nil) = ['[', ']'] := rfl

theorem printV_arrCons (ind : Nat) (v : JsonVal) (tl : JsonElems) :
    printV ind (JsonVal.arr (JsonElems.cons v tl)) =
      '[' :: '\n' :: (spaces (ind + 2) ++ printElems (ind + 2) ind (JsonElems.cons v tl)) := rfl

theorem printV_objNil (ind : Nat) : printV ind (JsonVal.obj JsonFields.nil) = [lcurly, rcurly] := rfl

theorem printV_objCons (ind : Nat) (k : String) (v : JsonVal) (tl : JsonFields) :
    printV ind (JsonVal.obj (JsonFields.cons k v tl)) =
      lcurly :: '\n' :: (spaces (ind + 2) ++ printFields (ind + 2) ind (JsonFields.cons k v tl)) := rfl

theorem printElems_consNil (indIn indOut : Nat) (v : JsonVal) :
    printElems indIn indOut (JsonElems.cons v JsonElems.nil) =
      printV indIn v ++ '\n' :: (spaces indOut ++ [']']) := rfl

theorem printElems_consCons (indIn indOut : Nat) (v w : JsonVal) (tl : JsonElems) :
    printElems indIn indOut (JsonElems.cons v (JsonElems.cons w tl)) =
      printV indIn v ++ ',' :: '\n' :: (spaces indIn ++ printElems indIn indOut (JsonElems.cons w tl)) := rfl

theorem printFields_consNil (indIn indOut : Nat) (k : String) (v : JsonVal) :
    printFields indIn indOut (JsonFields.cons k v JsonFields.nil) =
      quoteChars k ++ ':' :: ' ' :: (printV indIn v ++ '\n' :: (spaces indOut ++ [rcurly])) := rfl

theorem printFields_consCons (indIn indOut : Nat) (k : String) (v : JsonVal)
    (k' : String) (w : JsonVal) (tl : JsonFields) :
    printFields indIn indOut (JsonFields.cons k v (JsonFields.cons k' w tl)) =
      quoteChars k ++ ':' :: ' ' ::
        (printV indIn v ++ ',' :: '\n' ::
          (spaces indIn ++ printFields indIn indOut (JsonFields.cons k' w tl))) := rfl

theorem jsizeV_arr (es : JsonElems) : jsizeV (JsonVal.arr es) = 1 + jsizeE es := rfl

theorem jsizeV_obj (fs : JsonFields) : jsizeV (JsonVal.obj fs) = 1 + jsizeF fs := rfl

theorem jsizeE_cons (v : JsonVal) (tl : JsonElems) :
    jsizeE (JsonElems.cons v tl) = 1 + max (jsizeV v) (jsizeE tl) := rfl

theorem jsizeF_cons (k : String) (v : JsonVal) (tl : JsonFields) :
    jsizeF (JsonFields.cons k v tl) = 1 + max (jsizeV v) (jsizeF tl) := rfl

theorem jsizeV_pos (v : JsonVal) : 1 ≤ jsizeV v := by
  cases v <;> simp [jsizeV]

theorem jsizeE_pos (es : JsonElems) : 1 ≤ jsizeE es := by
  cases es <;> simp [jsizeE]

theorem jsizeF_pos (fs : JsonFields) : 1 ≤ jsizeF fs := by
  cases fs <;> simp [jsizeF]

/-- Every printed JSON value starts with a non-whitespace character that is not a
closing bracket. -/
theorem printV_head (ind : Nat) (v : JsonVal) :
    ∃ c l, printV ind v = c :: l ∧ isWsChar c = false ∧ c ≠ ']' := by
  cases v with
  | null => exact ⟨'n', _, rfl, by decide, by decide⟩
  | bool b =>
    cases b
    · exact ⟨'f', _, rfl, by decide, by decide⟩
    · exact ⟨'t', _, rfl, by decide, by decide⟩
  | num n =>
    rw [printV_num]
    by_cases hi : n < 0
    · exact ⟨'-', _, by rw [intChars, if_pos hi], by decide, by decide⟩
    · obtain ⟨c, tl, hct⟩ : ∃ c tl, natChars n.toNat = c :: tl := by
        cases h : natChars n.toNat with
        | nil => exact absurd h (natChars_ne_nil _)
        | cons c tl => exact ⟨c, tl, rfl⟩
      have hcd : c.isDigit = true := by
        have := List.all_eq_true.mp (natChars_all_digits n.toNat) c (by rw [hct]; simp)
        simpa using this
      refine ⟨c, tl, by rw [intChars, if_neg hi, hct], isDigit_not_ws hcd, ?_⟩
      exact (not_special_of_isDigit hcd).2.2.2.2.2.2.2.2.2.2.1
  | str s => exact ⟨quoteChar, _, rfl, by decide, by decide⟩
  | arr es =>
    cases es with
    | nil => exact ⟨'[', _, rfl, by decide, by decide⟩
    | cons v tl => exact ⟨'[', _, printV_arrCons ind v tl, by decide, by decide⟩
  | obj fs =>
    cases fs with
    | nil => exact ⟨lcurly, _, rfl, by decide, by decide⟩
    | cons k v tl => exact ⟨lcurly, _, printV_objCons ind k v tl, by decide, by decide⟩

theorem wsOnly_nl_spaces (n : Nat) : ∀ c ∈ ('\n' :: spaces n), isWsChar c = true := by
  intro c hc
  rcases List.mem_cons.mp hc with rfl | h
  · decide
  · rw [List.eq_of_mem_replicate h]
    decide

/-- The parser inverts the printer: for sufficient fuel, any printed value (possibly
preceded by whitespace) parses back to itself, leaving exactly the trailing input;
likewise for non-empty printed element and field lists (which consume their closing
bracket). -/
theorem parse_print_bundle : ∀ fuel : Nat,
    (∀ (v : JsonVal) (ind : Nat) (pre rest : List Char),
      (∀ c ∈ pre, isWsChar c = true) → jsizeV v ≤ fuel → headDigit rest = false →
      parseVal fuel (pre ++ (printV ind v ++ rest)) = some (v, rest)) ∧
    (∀ (es : JsonElems) (indIn indOut : Nat) (pre rest : List Char),
      (∀ c ∈ pre, isWsChar c = true) → es ≠ .nil → jsizeE es ≤ fuel →
      parseElems fuel (pre ++ (printElems indIn indOut es ++ rest)) = some (es, rest)) ∧
    (∀ (fs : JsonFields) (indIn indOut : Nat) (pre rest : List Char),
      (∀ c ∈ pre, isWsChar c = true) → fs ≠ .nil → jsizeF fs ≤ fuel →
      parseFields fuel (pre ++ (printFields indIn indOut fs ++ rest)) = some (fs, rest)) := by
  intro fuel
  induction fuel with
  | zero =>
    refine ⟨fun v _ _ _ _ hsz _ => absurd hsz (by have := jsizeV_pos v; omega),
      fun es _ _ _ _ _ _ hsz => absurd hsz (by have := jsizeE_pos es; omega),
      fun fs _ _ _ _ _ _ hsz => absurd hsz (by have := jsizeF_pos fs; omega)⟩
  | succ fuel ih =>
    obtain ⟨ihV, ihE, ihF⟩ := ih
    refine ⟨?_, ?_, ?_⟩
    · -- values
      intro v ind pre rest hpre hsz hrest
      cases v with
      | null =>
        rw [printV_null]
        simp only [parseVal]
        rw [skipWs_append_wsOnly _ _ hpre,
          show ((['n', 'u', 'l', 'l'] : List Char) ++ rest) = 'n' :: (['u', 'l', 'l'] ++ rest)
            from rfl,
          skipWs_cons_not _ (by decide)]
        simp [List.take, List.drop]
      | bool b =>
        cases b
        · rw [show printV ind (JsonVal.bool false) = ['f', 'a', 'l', 's', 'e'] from rfl]
          simp only [parseVal]
          rw [skipWs_append_wsOnly _ _ hpre,
            show ((['f', 'a', 'l', 's', 'e'] : List Char) ++ rest)
              = 'f' :: (['a', 'l', 's', 'e'] ++ rest) from rfl,
            skipWs_cons_not _ (by decide)]
          simp [List.take, List.drop]
        · rw [show printV ind (JsonVal.bool true) = ['t', 'r', 'u', 'e'] from rfl]
          simp only [parseVal]
          rw [skipWs_append_wsOnly _ _ hpre,
            show ((['t', 'r', 'u', 'e'] : List Char) ++ rest) = 't' :: (['r', 'u', 'e'] ++ rest)
              from rfl,
            skipWs_cons_not _ (by decide)]
          simp [List.take, List.drop]
      | num n =>
        rw [printV_num]
        simp only [parseVal]
        rw [skipWs_append_wsOnly _ _ hpre]
        by_cases hi : n < 0
        · rw [intChars, if_pos hi, List.cons_append, skipWs_cons_not _ (by decide)]
          simp [(by decide : ('-' : Char) ≠ quoteChar), (by decide : ('-' : Char) ≠ lcurly),
            parseNat_natChars _ _ hrest]
          rw [abs_of_neg hi, neg_neg]
        · obtain ⟨c, tl, hct⟩ : ∃ c tl, natChars n.toNat = c :: tl := by
            cases h : natChars n.toNat with
            | nil => exact absurd h (natChars_ne_nil _)
            | cons c tl => exact ⟨c, tl, rfl⟩
          have hcd : c.isDigit = true := by
            have := List.all_eq_true.mp (natChars_all_digits n.toNat) c (by rw [hct]; simp)
            simpa using this
          obtain ⟨hn, ht, hf, hq, hlb, hlc, hm, hp, _⟩ := not_special_of_isDigit hcd
          have hpn : parseNat (c :: (tl ++ rest)) = some (n.toNat, rest) := by
            rw [show c :: (tl ++ rest) = (c :: tl) ++ rest from rfl, ← hct]
            exact parseNat_natChars _ _ hrest
          rw [intChars, if_neg hi, hct, List.cons_append, skipWs_cons_not _ (isDigit_not_ws hcd)]
          simp [hn, ht, hf, hq, hlb, hlc, hm, hp, hcd, hpn]
          omega
      | str s =>
        rw [printV_str, quoteChars]
        simp only [parseVal]
        rw [skipWs_append_wsOnly _ _ hpre, List.cons_append, skipWs_cons_not _ (by decide)]
        have hb : escList s.data ++ [quoteChar] ++ rest = escList s.data ++ (quoteChar :: rest) := by
          simp
        simp [(by decide : quoteChar ≠ 'n'), (by decide : quoteChar ≠ 't'),
          (by decide : quoteChar ≠ 'f'), hb, parseStrBody_escList, stringMk_data]
      | arr es =>
        cases es with
        | nil =>
          rw [printV_arrNil]
          simp only [parseVal]
          rw [skipWs_append_wsOnly _ _ hpre, List.cons_append, skipWs_cons_not _ (by decide)]
          simp only [List.cons_append, List.nil_append]
          rw [skipWs_cons_not _ (by decide)]
          simp [(by decide : ('[' : Char) ≠ quoteChar), (by decide : ('[' : Char) ≠ lcurly)]
        | cons v tl =>
          rw [printV_arrCons]
          simp only [parseVal]
          rw [skipWs_append_wsOnly _ _ hpre, List.cons_append, skipWs_cons_not _ (by decide)]
          obtain ⟨c, l, hcl, hcw, hcb⟩ := printV_head (ind + 2) v
          have hl2 : ∃ l2, printElems (ind + 2) ind (JsonElems.cons v tl) ++ rest = c :: l2 := by
            cases tl with
            | nil =>
              exact ⟨l ++ ('\n' :: (spaces ind ++ [']'])) ++ rest,
                by rw [printElems_consNil, hcl]; simp⟩
            | cons w tl2 =>
              exact ⟨l ++ (',' :: '\n' ::
                  (spaces (ind + 2) ++ printElems (ind + 2) ind (JsonElems.cons w tl2))) ++ rest,
                by rw [printElems_consCons, hcl]; simp⟩
          obtain ⟨l2, hl2⟩ := hl2
          have hskip : skipWs ('\n' :: (spaces (ind + 2) ++
              (printElems (ind + 2) ind (JsonElems.cons v tl) ++ rest))) = c :: l2 := by
            rw [skipWs_cons_ws _ (by decide), skipWs_spaces, hl2, skipWs_cons_not _ hcw]
          have hEapp := ihE (JsonElems.cons v tl) (ind + 2) ind [] rest (by simp) (by simp)
            (by rw [jsizeV_arr] at hsz; omega)
          rw [List.nil_append, hl2] at hEapp
          simp [(by decide : ('[' : Char) ≠ quoteChar), (by decide : ('[' : Char) ≠ lcurly),
            hskip, hcb, hEapp]
      | obj fs =>
        cases fs with
        | nil =>
          rw [printV_objNil]
          simp only [parseVal]
          rw [skipWs_append_wsOnly _ _ hpre, List.cons_append, skipWs_cons_not _ (by decide)]
          simp only [List.cons_append, List.nil_append]
          rw [skipWs_cons_not _ (by decide)]
          simp [(by decide : lcurly ≠ 'n'), (by decide : lcurly ≠ 't'),
            (by decide : lcurly ≠ 'f'), (by decide : lcurly ≠ quoteChar),
            (by decide : lcurly ≠ '[')]
        | cons k v tl =>
          rw [printV_objCons]
          simp only [parseVal]
          rw [skipWs_append_wsOnly _ _ hpre, List.cons_append, skipWs_cons_not _ (by decide)]
          have hl2 : ∃ l2, printFields (ind + 2) ind (JsonFields.cons k v tl) ++ rest
              = quoteChar :: l2 := by
            cases tl with
            | nil =>
              exact ⟨(escList k.data ++ [quoteChar]) ++
                  (':' :: ' ' :: (printV (ind + 2) v ++ '\n' :: (spaces ind ++ [rcurly]))) ++ rest,
                by rw [printFields_consNil, quoteChars]; simp⟩
            | cons k' w tl2 =>
              exact ⟨(escList k.data ++ [quoteChar]) ++
                  (':' :: ' ' :: (printV (ind + 2) v ++ ',' :: '\n' ::
                    (spaces (ind + 2) ++ printFields (ind + 2) ind (JsonFields.cons k' w tl2)))) ++ rest,
                by rw [printFields_consCons, quoteChars]; simp⟩
          obtain ⟨l2, hl2⟩ := hl2
          have hskip : skipWs ('\n' :: (spaces (ind + 2) ++
              (printFields (ind + 2) ind (JsonFields.cons k v tl) ++ rest))) = quoteChar :: l2 := by
            rw [skipWs_cons_ws _ (by decide), skipWs_spaces, hl2, skipWs_cons_not _ (by decide)]
          have hFapp := ihF (JsonFields.cons k v tl) (ind + 2) ind [] rest (by simp) (by simp)
            (by rw [jsizeV_obj] at hsz; omega)
          rw [List.nil_append, hl2] at hFapp
          simp [(by decide : lcurly ≠ 'n'), (by decide : lcurly ≠ 't'),
            (by decide : lcurly ≠ 'f'), (by decide : lcurly ≠ quoteChar),
            (by decide : lcurly ≠ '['), (by decide : quoteChar ≠ rcurly),
            hskip, hFapp]
    · -- element lists
      intro es indIn indOut pre rest hpre hne hsz
      cases es with
      | nil => exact absurd rfl hne
      | cons v tl =>
        cases tl with
        | nil =>
          rw [printElems_consNil]
          simp only [parseElems]
          have hV := ihV v indIn pre ('\n' :: (spaces indOut ++ (']' :: rest))) hpre
            (by rw [jsizeE_cons] at hsz; have := jsizeE_pos JsonElems.nil; omega)
            (by simp [headDigit])
          have hskip : skipWs ('\n' :: (spaces indOut ++ (']' :: rest))) = ']' :: rest := by
            rw [skipWs_cons_ws _ (by decide), skipWs_spaces, skipWs_cons_not _ (by decide)]
          simp [List.append_assoc, hV, hskip]
        | cons w tl2 =>
          rw [printElems_consCons]
          simp only [parseElems]
          have hV := ihV v indIn pre
            (',' :: '\n' :: (spaces indIn ++ (printElems indIn indOut (JsonElems.cons w tl2) ++ rest)))
            hpre (by rw [jsizeE_cons] at hsz; omega) (by simp [headDigit])
          have hE := ihE (JsonElems.cons w tl2) indIn indOut ('\n' :: spaces indIn) rest
            (wsOnly_nl_spaces indIn) (by simp) (by rw [jsizeE_cons] at hsz; omega)
          simp only [List.cons_append, List.append_assoc] at hE
          have hskip : skipWs (',' :: '\n' ::
              (spaces indIn ++ (printElems indIn indOut (JsonElems.cons w tl2) ++ rest)))
              = ',' :: '\n' ::
                (spaces indIn ++ (printElems indIn indOut (JsonElems.cons w tl2) ++ rest)) :=
            skipWs_cons_not _ (by decide)
          simp [List.append_assoc, hV, hskip, hE]
    · -- field lists
      intro fs indIn indOut pre rest hpre hne hsz
      cases fs with
      | nil => exact absurd rfl hne
      | cons k v tl =>
        cases tl with
        | nil =>
          rw [printFields_consNil]
          simp only [parseFields]
          rw [show pre ++ ((quoteChars k ++ ':' :: ' ' ::
                (printV indIn v ++ '\n' :: (spaces indOut ++ [rcurly]))) ++ rest)
              = pre ++ (quoteChar :: (escList k.data ++ (quoteChar :: (':' :: ' ' ::
                (printV indIn v ++ ('\n' :: (spaces indOut ++ (rcurly :: rest))))))))
            from by rw [quoteChars]; simp]
          rw [skipWs_append_wsOnly _ _ hpre, skipWs_cons_not _ (by decide)]
          have hV := ihV v indIn [' '] ('\n' :: (spaces indOut ++ (rcurly :: rest)))
            (by intro c hc; simp at hc; rw [hc]; rfl)
            (by rw [jsizeF_cons] at hsz; omega) (by simp [headDigit])
          simp only [List.cons_append, List.nil_append] at hV
          have hcolon : skipWs (':' :: ' ' ::
              (printV indIn v ++ ('\n' :: (spaces indOut ++ (rcurly :: rest)))))
              = ':' :: ' ' :: (printV indIn v ++ ('\n' :: (spaces indOut ++ (rcurly :: rest)))) :=
            skipWs_cons_not _ (by decide)
          have hskip : skipWs ('\n' :: (spaces indOut ++ (rcurly :: rest))) = rcurly :: rest := by
            rw [skipWs_cons_ws _ (by decide), skipWs_spaces, skipWs_cons_not _ (by decide)]
          simp [parseStrBody_escList, hcolon, hV, hskip, (by decide : rcurly ≠ ','),
            stringMk_data]
        | cons k' w tl2 =>
          rw [printFields_consCons]
          simp only [parseFields]
          rw [show pre ++ ((quoteChars k ++ ':' :: ' ' ::
                (printV indIn v ++ ',' :: '\n' ::
                  (spaces indIn ++ printFields indIn indOut (JsonFields.cons k' w tl2)))) ++ rest)
              = pre ++ (quoteChar :: (escList k.data ++ (quoteChar :: (':' :: ' ' ::
                (printV indIn v ++ (',' :: '\n' ::
                  (spaces indIn ++ (printFields indIn indOut (JsonFields.cons k' w tl2) ++ rest))))))))
            from by rw [quoteChars]; simp]
          rw [skipWs_append_wsOnly _ _ hpre, skipWs_cons_not _ (by decide)]
          have hV := ihV v indIn [' ']
            (',' :: '\n' ::
              (spaces indIn ++ (printFields indIn indOut (JsonFields.cons k' w tl2) ++ rest)))
            (by intro c hc; simp at hc; rw [hc]; rfl)
            (by rw [jsizeF_cons] at hsz; omega) (by simp [headDigit])
          simp only [List.cons_append, List.nil_append] at hV
          have hcolon : skipWs (':' :: ' ' ::
              (printV indIn v ++ (',' :: '\n' ::
                (spaces indIn ++ (printFields indIn indOut (JsonFields.cons k' w tl2) ++ rest)))))
              = ':' :: ' ' ::
                (printV indIn v ++ (',' :: '\n' ::
                  (spaces indIn ++ (printFields indIn indOut (JsonFields.cons k' w tl2) ++ rest)))) :=
            skipWs_cons_not _ (by decide)
          have hcomma : skipWs (',' :: '\n' ::
              (spaces indIn ++ (printFields indIn indOut (JsonFields.cons k' w tl2) ++ rest)))
              = ',' :: '\n' ::
                (spaces indIn ++ (printFields indIn indOut (JsonFields.cons k' w tl2) ++ rest)) :=
            skipWs_cons_not _ (by decide)
          have hF := ihF (JsonFields.cons k' w tl2) indIn indOut ('\n' :: spaces indIn) rest
            (wsOnly_nl_spaces indIn) (by simp) (by rw [jsizeF_cons] at hsz; omega)
          simp only [List.cons_append, List.append_assoc] at hF
          simp [parseStrBody_escList, hcolon, hV, hcomma, hF, stringMk_data]

mutual
/-- The parser fuel needed for a value is at most the length of its printed form. -/
theorem jsizeV_le_len : ∀ (ind : Nat) (v : JsonVal), jsizeV v ≤ (printV ind v).length
  | _, .null => by simp [printV_null, jsizeV]
  | _, .bool b => by cases b <;> simp [printV_bool, jsizeV]
  | _, .num n => by
    rw [printV_num]
    have : intChars n ≠ [] := by
      by_cases hi : n < 0 <;> simp [intChars, hi, natChars_ne_nil]
    have hlen : 0 < (intChars n).length := List.length_pos.mpr this
    simp [jsizeV]
    omega
  | _, .str s => by
    rw [printV_str, quoteChars]
    simp [jsizeV]
  | _, .arr .nil => by simp [printV_arrNil, jsizeV_arr, jsizeE]
  | ind, .arr (.cons v tl) => by
    have h := jsizeE_le_len (ind + 2) ind (.cons v tl)
    rw [jsizeV_arr, printV_arrCons]
    simp only [List.length_cons, List.length_append, spaces, List.length_replicate]
    omega
  | _, .obj .nil => by simp [printV_objNil, jsizeV_obj, jsizeF]
  | ind, .obj (.cons k v tl) => by
    have h := jsizeF_le_len (ind + 2) ind (.cons k v tl)
    rw [jsizeV_obj, printV_objCons]
    simp only [List.length_cons, List.length_append, spaces, List.length_replicate]
    omega

theorem jsizeE_le_len : ∀ (indIn indOut : Nat) (es : JsonElems),
    jsizeE es ≤ (printElems indIn indOut es).length
  | _, _, .nil => by simp [jsizeE, printElems]
  | indIn, indOut, .cons v .nil => by
    have h := jsizeV_le_len indIn v
    have h0 : jsizeE JsonElems.nil = 1 := rfl
    rw [jsizeE_cons, printElems_consNil]
    simp only [List.length_cons, List.length_append, spaces, List.length_replicate]
    omega
  | indIn, indOut, .cons v (.cons w tl) => by
    have h1 := jsizeV_le_len indIn v
    have h2 := jsizeE_le_len indIn indOut (.cons w tl)
    rw [jsizeE_cons, printElems_consCons]
    simp only [List.length_cons, List.length_append, spaces, List.length_replicate]
    omega

theorem jsizeF_le_len : ∀ (indIn indOut : Nat) (fs : JsonFields),
    jsizeF fs ≤ (printFields indIn indOut fs).length
  | _, _, .nil => by simp [jsizeF, printFields]
  | indIn, indOut, .cons k v .nil => by
    have h := jsizeV_le_len indIn v
    have h0 : jsizeF JsonFields.nil = 1 := rfl
    rw [jsizeF_cons, printFields_consNil]
    simp only [List.length_cons, List.length_append, spaces, List.length_replicate]
    omega
  | indIn, indOut, .cons k v (.cons k' w tl) => by
    have h1 := jsizeV_le_len indIn v
    have h2 := jsizeF_le_len indIn indOut (.cons k' w tl)
    rw [jsizeF_cons, printFields_consCons]
    simp only [List.length_cons, List.length_append, spaces, List.length_replicate]
    omega
end

/-- `JSON.parse` inverts `JSON.stringify(·, null, 2)` on any value. -/
theorem parseJson_printV (v : JsonVal) : parseJson (printV 0 v) = some v := by
  have hb := (parse_print_bundle ((printV 0 v).length + 1)).1 v 0 [] []
    (by simp) (by have := jsizeV_le_len 0 v; omega) (by simp [headDigit])
  simp only [List.nil_append, List.append_nil] at hb
  rw [parseJson, hb]
  rfl

theorem elemsToObjs_elemsOfObjs (l : List JsonFields) :
    elemsToObjs (elemsOfObjs l) = some l := by
  induction l with
  | nil => rfl
  | cons p tl ih => simp [elemsOfObjs, elemsToObjs, ih]

/-- Re-parsing the exact text written by the file-backed server yields the list
it serialized. -/
theorem parseTopList_printTop (l : List JsonFields) :
    parseTopList (printTop l) = some l := by
  rw [parseTopList, printTop, parseJson_printV]
  exact elemsToObjs_elemsOfObjs l

theorem fieldsLookup_append : ∀ (a b : JsonFields) (k : String),
    fieldsLookup (fieldsAppend a b) k = ((fieldsLookup a k).orElse (fun _ => fieldsLookup b k))
  | .nil, b, k => by simp [fieldsAppend, fieldsLookup]
  | .cons k' v tl, b, k => by
    by_cases h : k' == k
    · simp [fieldsAppend, fieldsLookup, h]
    · simp [fieldsAppend, fieldsLookup, h, fieldsLookup_append tl b k]

theorem fieldsLookup_overwrite : ∀ (body old : JsonFields) (k : String),
    fieldsLookup (overwriteFields body old) k
      = (fieldsLookup old k).map (fun v => (fieldsLookup body k).getD v)
  | body, .nil, k => by simp [overwriteFields, fieldsLookup]
  | body, .cons k' v tl, k => by
    by_cases h : k' == k
    · have : k' = k := by simpa using h
      subst this
      simp [overwriteFields, fieldsLookup, h]
    · simp [overwriteFields, fieldsLookup, h, fieldsLookup_overwrite body tl k]

theorem fieldsLookup_filterNew : ∀ (old body : JsonFields) (k : String),
    fieldsLookup old k = none →
    fieldsLookup (filterNewFields old body) k = fieldsLookup body k
  | old, .nil, k, _ => by simp [filterNewFields]
  | old, .cons k' v tl, k, h => by
    by_cases hk : k' == k
    · have : k' = k := by simpa using hk
      subst this
      rw [filterNewFields, if_neg (by simp [h]), fieldsLookup, if_pos (by simp), fieldsLookup,
        if_pos (by simp)]
    · by_cases hs : (fieldsLookup old k').isSome
      · rw [filterNewFields, if_pos hs, fieldsLookup_filterNew old tl k h, fieldsLookup,
          if_neg hk]
      · rw [filterNewFields, if_neg hs, fieldsLookup, if_neg hk,
          fieldsLookup_filterNew old tl k h, fieldsLookup, if_neg hk]
/-- Top-level lookup after the spread `{ ...old, ...body }`: the body's binding when
present, otherwise the old record's binding. -/
theorem fieldsLookup_jsMerge (old body : JsonFields) (k : String) :
    fieldsLookup (jsMerge old body) k
      = ((fieldsLookup body k).orElse (fun _ => fieldsLookup old k)) := by
  rw [jsMerge, fieldsLookup_append, fieldsLookup_overwrite]
  cases ho : fieldsLookup old k with
  | some v =>
    cases hb : fieldsLookup body k with
    | some w => simp [Option.orElse]
    | none => simp [Option.orElse]
  | none =>
    rw [fieldsLookup_filterNew old body k ho]
    cases hb : fieldsLookup body k with
    | some w => simp [Option.orElse]
    | none => simp [Option.orElse]

theorem updateFirst_none (pred : JsonFields → Bool) (f : JsonFields → JsonFields)
    (l : List JsonFields) (h : ∀ q ∈ l, pred q = false) :
    updateFirst pred f l = none := by
  induction l with
  | nil => rfl
  | cons p tl ih =>
    rw [updateFirst, if_neg (by simp [h p (by simp)]), ih (fun q hq => h q (by simp [hq]))]
    rfl

theorem updateFirst_append (pred : JsonFields → Bool) (f : JsonFields → JsonFields)
    (pre post : List JsonFields) (p : JsonFields)
    (hpre : ∀ q ∈ pre, pred q = false) (hp : pred p = true) :
    updateFirst pred f (pre ++ p :: post) = some (pre ++ f p :: post, f p) := by
  induction pre with
  | nil => simp [updateFirst, hp]
  | cons q tl ih =>
    rw [List.cons_append, updateFirst, if_neg (by simp [hpre q (by simp)]),
      ih (fun r hr => hpre r (by simp [hr]))]
    rfl

theorem removeFirst_none (pred : JsonFields → Bool) (l : List JsonFields)
    (h : ∀ q ∈ l, pred q = false) :
    removeFirst pred l = none := by
  induction l with
  | nil => rfl
  | cons p tl ih =>
    rw [removeFirst, if_neg (by simp [h p (by simp)]), ih (fun q hq => h q (by simp [hq]))]
    rfl

theorem removeFirst_append (pred : JsonFields → Bool) (pre post : List JsonFields)
    (p : JsonFields) (hpre : ∀ q ∈ pre, pred q = false) (hp : pred p = true) :
    removeFirst pred (pre ++ p :: post) = some (pre ++ post, p) := by
  induction pre with
  | nil => simp [removeFirst, hp]
  | cons q tl ih =>
    rw [List.cons_append, removeFirst, if_neg (by simp [hpre q (by simp)]),
      ih (fun r hr => hpre r (by simp [hr]))]
    rfl

theorem find?_append_first (pred : JsonFields → Bool) (pre post : List JsonFields)
    (p : JsonFields) (hpre : ∀ q ∈ pre, pred q = false) (hp : pred p = true) :
    (pre ++ p :: post).find? pred = some p := by
  induction pre with
  | nil => simp [List.find?_cons, hp]
  | cons q tl ih =>
    rw [List.cons_append, List.find?_cons]
    rw [hpre q (by simp)]
    exact ih (fun r hr => hpre r (by simp [hr]))

theorem idStrictEq_none (p : JsonFields) : idStrictEq p none = false := by
  cases h : fieldsLookup p "id" with
  | none => simp [idStrictEq, h]
  | some v => cases v <;> simp [idStrictEq, h]

theorem idLooseEq_none (p : JsonFields) : idLooseEq p none = false := by
  cases h : fieldsLookup p "id" with
  | none => simp [idLooseEq, h]
  | some v => cases v <;> simp [idLooseEq, h]

theorem idStrictEq_of_num (p : JsonFields) (m n : Int)
    (h : fieldsLookup p "id" = some (JsonVal.num m)) :
    idStrictEq p (some n) = (m == n) := by
  simp [idStrictEq, h]

theorem idLooseEq_of_strict (p : JsonFields) (o : Option Int) (h : idStrictEq p o = true) :
    idLooseEq p o = true := by
  cases hl : fieldsLookup p "id" with
  | none => cases o <;> simp [idStrictEq, hl] at h
  | some v =>
    cases o with
    | none => cases v <;> simp [idStrictEq, hl] at h
    | some n => cases v <;> simp_all [idStrictEq, idLooseEq, hl]

theorem idStrictEq_false_of_loose_false (p : JsonFields) (o : Option Int)
    (h : idLooseEq p o = false) : idStrictEq p o = false := by
  cases hs : idStrictEq p o with
  | false => rfl
  | true => exact absurd (idLooseEq_of_strict p o hs) (by simp [h])

mutual
theorem jsonBeq_refl : ∀ v : JsonVal, jsonBeq v v = true
  | .null => rfl
  | .bool b => by simp [jsonBeq]
  | .num n => by simp [jsonBeq]
  | .str s => by simp [jsonBeq]
  | .arr es => by rw [jsonBeq]; exact elemsBeq_refl es
  | .obj fs => by rw [jsonBeq]; exact fieldsBeq_refl fs

theorem elemsBeq_refl : ∀ es : JsonElems, elemsBeq es es = true
  | .nil => rfl
  | .cons v tl => by
    rw [elemsBeq]
    simp [jsonBeq_refl v, elemsBeq_refl tl]

theorem fieldsBeq_refl : ∀ fs : JsonFields, fieldsBeq fs fs = true
  | .nil => rfl
  | .cons k v tl => by
    rw [fieldsBeq]
    simp [jsonBeq_refl v, fieldsBeq_refl tl]
end

theorem optValBeq_refl (o : Option JsonVal) : optValBeq o o = true := by
  cases o with
  | none => rfl
  | some v => rw [optValBeq]; exact jsonBeq_refl v

theorem sameId_of_lookup_eq (a b : JsonFields)
    (h : fieldsLookup a "id" = fieldsLookup b "id") : sameId a b = true := by
  rw [sameId, h]
  exact optValBeq_refl _

/-- C1: PUT `/api/pokemons/:id` on an existing id shallow-merges the request body
onto the stored record — every top-level field present in the body overwrites the
stored field, every absent field is unchanged — and answers 200 with the
post-update record; in the file-backed and the Mongo-backed variant alike. -/
theorem put_shallow_merges_existing
    (pre post : List JsonFields) (old body : JsonFields) (idStr : String)
    (hpre : ∀ q ∈ pre, idLooseEq q (parseIntJs idStr) = false)
    (hold : idStrictEq old (parseIntJs idStr) = true) :
    filePutPokemon (pre ++ old :: post) idStr body
      = (pre ++ jsMerge old body :: post,
          ⟨200, some "Pokémon mis à jour avec succès.", some (jsMerge old body)⟩)
    ∧ mongoPutPokemon (pre ++ old :: post) idStr body
      = (pre ++ jsMerge old body :: post,
          ⟨200, some "Pokémon mis à jour avec succès.", some (jsMerge old body)⟩)
    ∧ (∀ k w, fieldsLookup body k = some w → fieldsLookup (jsMerge old body) k = some w)
    ∧ (∀ k, fieldsLookup body k = none →
        fieldsLookup (jsMerge old body) k = fieldsLookup old k) := by
  have hpres : ∀ q ∈ pre, idStrictEq q (parseIntJs idStr) = false :=
    fun q hq => idStrictEq_false_of_loose_false q _ (hpre q hq)
  have hup := updateFirst_append (fun p => idLooseEq p (parseIntJs idStr))
    (fun p => jsMerge p body) pre post old hpre (idLooseEq_of_strict _ _ hold)
  have hups := updateFirst_append (fun p => idStrictEq p (parseIntJs idStr))
    (fun p => jsMerge p body) pre post old hpres hold
  refine ⟨?_, ?_, ?_, ?_⟩
  · rw [filePutPokemon, hup]
  · rw [mongoPutPokemon, hups]
  · intro k w hw
    rw [fieldsLookup_jsMerge, hw]
    rfl
  · intro k hk
    rw [fieldsLookup_jsMerge, hk]
    rfl

/-- Witness for C1: a one-record store, `PUT /api/pokemons/1` with a new `name`. -/
theorem put_shallow_merges_existing_witness :
    filePutPokemon [JsonFields.cons "id" (JsonVal.num 1)
        (JsonFields.cons "name" (JsonVal.str "Bulbizarre") JsonFields.nil)] "1"
        (JsonFields.cons "name" (JsonVal.str "Pikachu") JsonFields.nil)
      = ([jsMerge (JsonFields.cons "id" (JsonVal.num 1)
            (JsonFields.cons "name" (JsonVal.str "Bulbizarre") JsonFields.nil))
            (JsonFields.cons "name" (JsonVal.str "Pikachu") JsonFields.nil)],
         ⟨200, some "Pokémon mis à jour avec succès.",
          some (jsMerge (JsonFields.cons "id" (JsonVal.num 1)
            (JsonFields.cons "name" (JsonVal.str "Bulbizarre") JsonFields.nil))
            (JsonFields.cons "name" (JsonVal.str "Pikachu") JsonFields.nil))⟩) :=
  (put_shallow_merges_existing [] [] _ _ "1" (by simp) (by rfl)).1

/-- C2: POSTing a record whose integer id is absent from the store, then GETting
that id, returns exactly the posted record with 200; DELETE then removes exactly
it, and a subsequent GET answers 404. -/
theorem post_get_delete_roundtrip
    (st : List JsonFields) (r : JsonFields) (n : Int)
    (hid : fieldsLookup r "id" = some (JsonVal.num n))
    (hfresh : ∀ p ∈ st, idStrictEq p (some n) = false) :
    filePostPokemon st r = (st ++ [r], ⟨201, some "Pokémon ajouté avec succès.", some r⟩)
    ∧ fileGetPokemon (st ++ [r]) (intToStr n) = ⟨200, none, some r⟩
    ∧ fileDeletePokemon (st ++ [r]) (intToStr n)
        = (st, ⟨200, some "Pokémon supprimé avec succès.", some r⟩)
    ∧ fileGetPokemon st (intToStr n) = notFoundResp := by
  have hr : idStrictEq r (some n) = true := by
    rw [idStrictEq_of_num r n n hid]
    simp
  have hfresh' : ∀ p ∈ st, idStrictEq p (parseIntJs (intToStr n)) = false := by
    rw [parseIntJs_intToStr]
    exact hfresh
  have hrp : idStrictEq r (parseIntJs (intToStr n)) = true := by
    rw [parseIntJs_intToStr]
    exact hr
  refine ⟨rfl, ?_, ?_, ?_⟩
  · rw [fileGetPokemon, find?_append_first _ st [] r hfresh' hrp]
  · rw [fileDeletePokemon, removeFirst_append _ st [] r hfresh' hrp]
    simp
  · rw [fileGetPokemon, List.find?_eq_none.mpr (fun p hp => by simp [hfresh' p hp])]

/-- Witness for C2: id 999 in an empty store. -/
theorem post_get_delete_roundtrip_witness :
    filePostPokemon [] (JsonFields.cons "id" (JsonVal.num 999) JsonFields.nil)
      = ([JsonFields.cons "id" (JsonVal.num 999) JsonFields.nil],
         ⟨201, some "Pokémon ajouté avec succès.",
          some (JsonFields.cons "id" (JsonVal.num 999) JsonFields.nil)⟩)
    ∧ fileGetPokemon [JsonFields.cons "id" (JsonVal.num 999) JsonFields.nil] (intToStr 999)
        = ⟨200, none, some (JsonFields.cons "id" (JsonVal.num 999) JsonFields.nil)⟩
    ∧ fileDeletePokemon [JsonFields.cons "id" (JsonVal.num 999) JsonFields.nil] (intToStr 999)
        = ([], ⟨200, some "Pokémon supprimé avec succès.",
            some (JsonFields.cons "id" (JsonVal.num 999) JsonFields.nil)⟩)
    ∧ fileGetPokemon [] (intToStr 999) = notFoundResp :=
  post_get_delete_roundtrip [] _ 999 rfl (by simp)

/-- C7: the file-backed POST performs no id-uniqueness check — with a record whose
id already occurs it still appends and answers 201 with that record, and the store
then holds at least two records with that id. -/
theorem post_appends_duplicate_id
    (st : List JsonFields) (body p : JsonFields) (hmem : p ∈ st)
    (hid : fieldsLookup p "id" = fieldsLookup body "id") :
    filePostPokemon st body
      = (st ++ [body], ⟨201, some "Pokémon ajouté avec succès.", some body⟩)
    ∧ 2 ≤ (st ++ [body]).countP (fun q => sameId q body) := by
  refine ⟨rfl, ?_⟩
  rw [List.countP_append]
  have h1 : 0 < st.countP (fun q => sameId q body) :=
    List.countP_pos_iff.mpr ⟨p, hmem, sameId_of_lookup_eq p body hid⟩
  have h2 : List.countP (fun q => sameId q body) [body] = 1 := by
    simp [List.countP_cons, sameId_of_lookup_eq body body rfl]
  omega

/-- Witness for C7: POSTing a second record with id 1. -/
theorem post_appends_duplicate_id_witness :
    filePostPokemon [JsonFields.cons "id" (JsonVal.num 1) JsonFields.nil]
        (JsonFields.cons "id" (JsonVal.num 1)
          (JsonFields.cons "name" (JsonVal.str "dup") JsonFields.nil))
      = ([JsonFields.cons "id" (JsonVal.num 1) JsonFields.nil,
          JsonFields.cons "id" (JsonVal.num 1)
            (JsonFields.cons "name" (JsonVal.str "dup") JsonFields.nil)],
         ⟨201, some "Pokémon ajouté avec succès.",
          some (JsonFields.cons "id" (JsonVal.num 1)
            (JsonFields.cons "name" (JsonVal.str "dup") JsonFields.nil))⟩)
    ∧ 2 ≤ ([JsonFields.cons "id" (JsonVal.num 1) JsonFields.nil] ++
          [JsonFields.cons "id" (JsonVal.num 1)
            (JsonFields.cons "name" (JsonVal.str "dup") JsonFields.nil)]).countP
          (fun q => sameId q (JsonFields.cons "id" (JsonVal.num 1)
            (JsonFields.cons "name" (JsonVal.str "dup") JsonFields.nil))) :=
  post_appends_duplicate_id _ _ (JsonFields.cons "id" (JsonVal.num 1) JsonFields.nil)
    (by simp) rfl

/-- C8: for an integer id matching no stored record, GET, PUT and DELETE on
`/api/pokemons/:id` each answer 404 with the fixed message `Pokémon non trouvé.`,
PUT and DELETE leave the stored list untouched, the file-backed server state
(including the backing file) is unchanged, and the Mongo-backed handlers behave
the same way. -/
theorem unknown_id_not_found
    (st : List JsonFields) (body : JsonFields) (n : Int) (disk : List Char)
    (h : ∀ p ∈ st, idLooseEq p (some n) = false) :
    fileGetPokemon st (intToStr n) = notFoundResp
    ∧ filePutPokemon st (intToStr n) body = (st, notFoundResp)
    ∧ fileDeletePokemon st (intToStr n) = (st, notFoundResp)
    ∧ stepServer ⟨st, disk⟩ (ApiRequest.update (intToStr n) body) = ⟨st, disk⟩
    ∧ stepServer ⟨st, disk⟩ (ApiRequest.remove (intToStr n)) = ⟨st, disk⟩
    ∧ mongoGetPokemon st (intToStr n) = notFoundResp
    ∧ mongoPutPokemon st (intToStr n) body = (st, notFoundResp)
    ∧ mongoDeletePokemon st (intToStr n) = (st, notFoundResp) := by
  have hl : ∀ p ∈ st, idLooseEq p (parseIntJs (intToStr n)) = false := by
    rw [parseIntJs_intToStr]
    exact h
  have hs : ∀ p ∈ st, idStrictEq p (parseIntJs (intToStr n)) = false :=
    fun p hp => idStrictEq_false_of_loose_false p _ (hl p hp)
  have hfind : st.find? (fun p => idStrictEq p (parseIntJs (intToStr n))) = none :=
    List.find?_eq_none.mpr (fun p hp => by simp [hs p hp])
  have hupL := updateFirst_none (fun p => idLooseEq p (parseIntJs (intToStr n)))
    (fun p => jsMerge p body) st hl
  have hupS := updateFirst_none (fun p => idStrictEq p (parseIntJs (intToStr n)))
    (fun p => jsMerge p body) st hs
  have hrem := removeFirst_none (fun p => idStrictEq p (parseIntJs (intToStr n))) st hs
  refine ⟨?_, ?_, ?_, ?_, ?_, ?_, ?_, ?_⟩
  · rw [fileGetPokemon, hfind]
  · rw [filePutPokemon, hupL]
  · rw [fileDeletePokemon, hrem]
  · simp [stepServer, hupL]
  · simp [stepServer, hrem]
  · rw [mongoGetPokemon, hfind]
  · rw [mongoPutPokemon, hupS]
  · rw [mongoDeletePokemon, hrem]

/-- Witness for C8: id 42 against a store holding only id 1. -/
theorem unknown_id_not_found_witness :
    fileGetPokemon [JsonFields.cons "id" (JsonVal.num 1) JsonFields.nil] (intToStr 42)
        = notFoundResp
    ∧ filePutPokemon [JsonFields.cons "id" (JsonVal.num 1) JsonFields.nil] (intToStr 42)
          (JsonFields.cons "name" (JsonVal.str "x") JsonFields.nil)
        = ([JsonFields.cons "id" (JsonVal.num 1) JsonFields.nil], notFoundResp)
    ∧ fileDeletePokemon [JsonFields.cons "id" (JsonVal.num 1) JsonFields.nil] (intToStr 42)
        = ([JsonFields.cons "id" (JsonVal.num 1) JsonFields.nil], notFoundResp)
    ∧ stepServer ⟨[JsonFields.cons "id" (JsonVal.num 1) JsonFields.nil], ['x']⟩
          (ApiRequest.update (intToStr 42) (JsonFields.cons "name" (JsonVal.str "x") JsonFields.nil))
        = ⟨[JsonFields.cons "id" (JsonVal.num 1) JsonFields.nil], ['x']⟩
    ∧ stepServer ⟨[JsonFields.cons "id" (JsonVal.num 1) JsonFields.nil], ['x']⟩
          (ApiRequest.remove (intToStr 42))
        = ⟨[JsonFields.cons "id" (JsonVal.num 1) JsonFields.nil], ['x']⟩
    ∧ mongoGetPokemon [JsonFields.cons "id" (JsonVal.num 1) JsonFields.nil] (intToStr 42)
        = notFoundResp
    ∧ mongoPutPokemon [JsonFields.cons "id" (JsonVal.num 1) JsonFields.nil] (intToStr 42)
          (JsonFields.cons "name" (JsonVal.str "x") JsonFields.nil)
        = ([JsonFields.cons "id" (JsonVal.num 1) JsonFields.nil], notFoundResp)
    ∧ mongoDeletePokemon [JsonFields.cons "id" (JsonVal.num 1) JsonFields.nil] (intToStr 42)
        = ([JsonFields.cons "id" (JsonVal.num 1) JsonFields.nil], notFoundResp) :=
  unknown_id_not_found _ _ 42 _ (by intro p hp; simp at hp; rw [hp]; rfl)

/-- C9: in the file-backed variant, any `:id` path parameter that `parseInt` maps to
`NaN` makes GET, PUT and DELETE take the 404 branch — never a 500, and the store
and backing file are not touched. -/
theorem nan_id_not_found
    (st : List JsonFields) (body : JsonFields) (idStr : String) (disk : List Char)
    (h : parseIntJs idStr = none) :
    fileGetPokemon st idStr = notFoundResp
    ∧ filePutPokemon st idStr body = (st, notFoundResp)
    ∧ fileDeletePokemon st idStr = (st, notFoundResp)
    ∧ stepServer ⟨st, disk⟩ (ApiRequest.update idStr body) = ⟨st, disk⟩
    ∧ stepServer ⟨st, disk⟩ (ApiRequest.remove idStr) = ⟨st, disk⟩ := by
  have hl : ∀ p ∈ st, idLooseEq p (parseIntJs idStr) = false := fun p _ => by
    rw [h]
    exact idLooseEq_none p
  have hs : ∀ p ∈ st, idStrictEq p (parseIntJs idStr) = false := fun p _ => by
    rw [h]
    exact idStrictEq_none p
  have hfind : st.find? (fun p => idStrictEq p (parseIntJs idStr)) = none :=
    List.find?_eq_none.mpr (fun p hp => by simp [hs p hp])
  have hupL := updateFirst_none (fun p => idLooseEq p (parseIntJs idStr))
    (fun p => jsMerge p body) st hl
  have hrem := removeFirst_none (fun p => idStrictEq p (parseIntJs idStr)) st hs
  refine ⟨?_, ?_, ?_, ?_, ?_⟩
  · rw [fileGetPokemon, hfind]
  · rw [filePutPokemon, hupL]
  · rw [fileDeletePokemon, hrem]
  · simp [stepServer, hupL]
  · simp [stepServer, hrem]

/-- Witness for C9: the non-numeric path parameter `abc`. -/
theorem nan_id_not_found_witness :
    parseIntJs "abc" = none
    ∧ (fileGetPokemon [JsonFields.cons "id" (JsonVal.num 1) JsonFields.nil] "abc" = notFoundResp
      ∧ filePutPokemon [JsonFields.cons "id" (JsonVal.num 1) JsonFields.nil] "abc"
            (JsonFields.cons "name" (JsonVal.str "x") JsonFields.nil)
          = ([JsonFields.cons "id" (JsonVal.num 1) JsonFields.nil], notFoundResp)
      ∧ fileDeletePokemon [JsonFields.cons "id" (JsonVal.num 1) JsonFields.nil] "abc"
          = ([JsonFields.cons "id" (JsonVal.num 1) JsonFields.nil], notFoundResp)
      ∧ stepServer ⟨[JsonFields.cons "id" (JsonVal.num 1) JsonFields.nil], ['x']⟩
            (ApiRequest.update "abc" (JsonFields.cons "name" (JsonVal.str "x") JsonFields.nil))
          = ⟨[JsonFields.cons "id" (JsonVal.num 1) JsonFields.nil], ['x']⟩
      ∧ stepServer ⟨[JsonFields.cons "id" (JsonVal.num 1) JsonFields.nil], ['x']⟩
            (ApiRequest.remove "abc")
          = ⟨[JsonFields.cons "id" (JsonVal.num 1) JsonFields.nil], ['x']⟩) :=
  ⟨rfl, nan_id_not_found _ _ "abc" _ rfl⟩

/-- C10: the file-backed GET and DELETE match ids with strict equality while PUT
matches loosely, so a record whose `id` field is the decimal string of `n` (with no
record of numeric id `n` in the store) is found and updated by PUT while GET and
DELETE on the same path answer 404. -/
theorem string_id_put_vs_get_delete
    (pre post : List JsonFields) (p body : JsonFields) (n : Int)
    (hpre : ∀ q ∈ pre, idLooseEq q (some n) = false)
    (hp : fieldsLookup p "id" = some (JsonVal.str (intToStr n)))
    (hstrict : ∀ q ∈ pre ++ p :: post, idStrictEq q (some n) = false) :
    filePutPokemon (pre ++ p :: post) (intToStr n) body
      = (pre ++ jsMerge p body :: post,
          ⟨200, some "Pokémon mis à jour avec succès.", some (jsMerge p body)⟩)
    ∧ fileGetPokemon (pre ++ p :: post) (intToStr n) = notFoundResp
    ∧ fileDeletePokemon (pre ++ p :: post) (intToStr n) = (pre ++ p :: post, notFoundResp) := by
  have hloose : idLooseEq p (some n) = true := by
    simp [idLooseEq, hp, strToNumber_intToStr]
  have hpre' : ∀ q ∈ pre, idLooseEq q (parseIntJs (intToStr n)) = false := by
    rw [parseIntJs_intToStr]
    exact hpre
  have hloose' : idLooseEq p (parseIntJs (intToStr n)) = true := by
    rw [parseIntJs_intToStr]
    exact hloose
  have hstrict' : ∀ q ∈ pre ++ p :: post, idStrictEq q (parseIntJs (intToStr n)) = false := by
    rw [parseIntJs_intToStr]
    exact hstrict
  refine ⟨?_, ?_, ?_⟩
  · rw [filePutPokemon, updateFirst_append _ _ pre post p hpre' hloose']
  · rw [fileGetPokemon, List.find?_eq_none.mpr (fun q hq => by simp [hstrict' q hq])]
  · rw [fileDeletePokemon, removeFirst_none _ _ hstrict']

/-- Witness for C10: one stored record with the string id `"7"`, path `/api/pokemons/7`. -/
theorem string_id_put_vs_get_delete_witness :
    filePutPokemon [JsonFields.cons "id" (JsonVal.str (intToStr 7)) JsonFields.nil] (intToStr 7)
        (JsonFields.cons "name" (JsonVal.str "x") JsonFields.nil)
      = ([jsMerge (JsonFields.cons "id" (JsonVal.str (intToStr 7)) JsonFields.nil)
            (JsonFields.cons "name" (JsonVal.str "x") JsonFields.nil)],
         ⟨200, some "Pokémon mis à jour avec succès.",
          some (jsMerge (JsonFields.cons "id" (JsonVal.str (intToStr 7)) JsonFields.nil)
            (JsonFields.cons "name" (JsonVal.str "x") JsonFields.nil))⟩)
    ∧ fileGetPokemon [JsonFields.cons "id" (JsonVal.str (intToStr 7)) JsonFields.nil] (intToStr 7)
        = notFoundResp
    ∧ fileDeletePokemon [JsonFields.cons "id" (JsonVal.str (intToStr 7)) JsonFields.nil]
          (intToStr 7)
        = ([JsonFields.cons "id" (JsonVal.str (intToStr 7)) JsonFields.nil], notFoundResp) :=
  string_id_put_vs_get_delete [] [] _ _ 7 (by simp) rfl
    (by intro q hq; simp at hq; rw [hq]; rfl)

/-- C6: in the file-backed variant, the mirror invariant — re-parsing the backing
file yields exactly the in-memory `pokemonsList` — is preserved by every request:
the mutating handlers rewrite the whole file from the post-mutation list, and the
non-mutating paths leave both sides untouched. -/
theorem file_mirror_invariant (s : ServerState) (req : ApiRequest)
    (h : diskMirrors s) : diskMirrors (stepServer s req) := by
  cases req with
  | getAll => exact h
  | getOne _ => exact h
  | create body =>
    simp [stepServer, diskMirrors, parseTopList_printTop]
  | update idStr body =>
    cases hu : updateFirst (fun p => idLooseEq p (parseIntJs idStr))
        (fun p => jsMerge p body) s.mem with
    | none => simpa [stepServer, hu] using h
    | some pr =>
      obtain ⟨mem', u⟩ := pr
      simp [stepServer, hu, diskMirrors, parseTopList_printTop]
  | remove idStr =>
    cases hr : removeFirst (fun p => idStrictEq p (parseIntJs idStr)) s.mem with
    | none => simpa [stepServer, hr] using h
    | some pr =>
      obtain ⟨mem', q⟩ := pr
      simp [stepServer, hr, diskMirrors, parseTopList_printTop]

/-- Witness for C6: a one-record server state whose file content is the serialized
list, stepped by a POST. -/
theorem file_mirror_invariant_witness :
    diskMirrors ⟨[JsonFields.cons "id" (JsonVal.num 1) JsonFields.nil],
        printTop [JsonFields.cons "id" (JsonVal.num 1) JsonFields.nil]⟩
    ∧ diskMirrors (stepServer
        ⟨[JsonFields.cons "id" (JsonVal.num 1) JsonFields.nil],
          printTop [JsonFields.cons "id" (JsonVal.num 1) JsonFields.nil]⟩
        (ApiRequest.create (JsonFields.cons "id" (JsonVal.num 2) JsonFields.nil))) := by
  refine ⟨?_, ?_⟩
  · rw [diskMirrors]
    exact parseTopList_printTop [JsonFields.cons "id" (JsonVal.num 1) JsonFields.nil]
  · exact file_mirror_invariant _ (ApiRequest.create _)
      (by rw [diskMirrors]
          exact parseTopList_printTop [JsonFields.cons "id" (JsonVal.num 1) JsonFields.nil])

/-- C4: `POST /auth/login` answers 401 with one identical response body both for an
email matching no account and for a stored account whose hash comparison fails —
the response does not reveal which of email or password was wrong. -/
theorem login_unified_failure_message
    (compare : String → String → Bool) (st : List UserDoc)
    (e1 p1 e2 p2 : String) (u : UserDoc)
    (h1e : e1 ≠ "") (h1p : p1 ≠ "")
    (h2e : e2 ≠ "") (h2p : p2 ≠ "")
    (hnone : ∀ w ∈ st, w.email ≠ e1)
    (hfind : st.find? (fun w => w.email == e2) = some u)
    (hcmp : compare p2 u.password = false) :
    (login compare st e1 p1).1 = 401 ∧ (login compare st e2 p2).1 = 401
    ∧ (login compare st e1 p1).2 = (login compare st e2 p2).2 := by
  have hf1 : st.find? (fun w => w.email == e1) = none :=
    List.find?_eq_none.mpr (fun w hw => by simp [hnone w hw])
  have hl1 : login compare st e1 p1 = (401, msgBody "Email ou mot de passe incorrect") := by
    simp [login, h1e, h1p, hf1]
  have hl2 : login compare st e2 p2 = (401, msgBody "Email ou mot de passe incorrect") := by
    simp [login, h2e, h2p, hfind, hcmp]
  rw [hl1, hl2]
  exact ⟨rfl, rfl, rfl⟩

/-- Witness for C4: unknown email vs. stored account with failing comparison. -/
theorem login_unified_failure_message_witness :
    (login (fun _ _ => false) [⟨0, "david", "d@mail.com", "h", 5⟩] "x@y.co" "pw").1 = 401
    ∧ (login (fun _ _ => false) [⟨0, "david", "d@mail.com", "h", 5⟩] "d@mail.com" "pw").1 = 401
    ∧ (login (fun _ _ => false) [⟨0, "david", "d@mail.com", "h", 5⟩] "x@y.co" "pw").2
        = (login (fun _ _ => false) [⟨0, "david", "d@mail.com", "h", 5⟩] "d@mail.com" "pw").2 :=
  login_unified_failure_message (fun _ _ => false) [⟨0, "david", "d@mail.com", "h", 5⟩]
    "x@y.co" "pw" "d@mail.com" "pw" ⟨0, "david", "d@mail.com", "h", 5⟩
    (by decide) (by decide) (by decide) (by decide)
    (by intro w hw; simp at hw; rw [hw]; decide) rfl rfl

/-- C5: when the credential store already holds an account with email `e`, a second
register request with that email answers 400 with the email-already-used message and
stores no new account. -/
theorem register_duplicate_email_rejected
    (hash : String → String) (now : Nat) (st : List UserDoc) (u : UserDoc)
    (username e password : String)
    (hmem : u ∈ st) (hemail : u.email = e)
    (hu : username ≠ "") (he : e ≠ "") (hp : password ≠ "") :
    register hash now st username e password
      = ⟨st, 400, msgBody "Cette adresse email est déjà utilisée"⟩ := by
  have hfind : (st.find? (fun w => w.email == e)).isSome :=
    List.find?_isSome.mpr ⟨u, hmem, by simp [hemail]⟩
  obtain ⟨v, hv⟩ := Option.isSome_iff_exists.mp hfind
  simp [register, hu, he, hp, hv]

/-- Witness for C5: re-registering `d@mail.com`. -/
theorem register_duplicate_email_rejected_witness :
    register (fun p => p) 9 [⟨0, "david", "d@mail.com", "h", 5⟩] "eve" "d@mail.com" "secret1"
      = ⟨[⟨0, "david", "d@mail.com", "h", 5⟩], 400,
          msgBody "Cette adresse email est déjà utilisée"⟩ :=
  register_duplicate_email_rejected (fun p => p) 9 _ ⟨0, "david", "d@mail.com", "h", 5⟩
    "eve" "d@mail.com" "secret1" (by simp) rfl (by decide) (by decide) (by decide)

/-- C3 (counterexample): a register request with fresh username and email and a
password of length 7 ≥ 6 — but username `ab` of length 2 — is answered 400, not
201: the handler's `save()` runs the schema's username minlength-3 validation,
which the claim as stated does not account for. -/
theorem register_password_length_claim_cex :
    6 ≤ ("secret1" : String).length
    ∧ (register (fun p => String.append "bcrypthash$" p) 0 [] "ab" "a@b.co" "secret1").status
        = 400 := by
  refine ⟨by decide, ?_⟩
  rfl

/-- C3 (amended): a register request whose trimmed username has length at least 3,
whose trimmed lower-cased email matches the schema's email pattern, whose password
has length at least 6 (and hashes, as stored, to at least 6 characters — bcrypt
hashes are 60), and whose username and email are not already stored, is answered
201, and the response body (message plus user object of id, username, email,
createdAt) contains no `password` key anywhere. -/
theorem register_valid_success_no_password
    (hash : String → String) (now : Nat) (st : List UserDoc)
    (username email password : String)
    (hu3 : 3 ≤ (trimStr username).length)
    (hem : emailMatches (lowerStr (trimStr email)) = true)
    (hp6 : 6 ≤ password.length)
    (hh6 : 6 ≤ (hash password).length)
    (hfreshE : ∀ u ∈ st, u.email ≠ email ∧ u.email ≠ lowerStr (trimStr email))
    (hfreshU : ∀ u ∈ st, u.username ≠ username ∧ u.username ≠ trimStr username) :
    (register hash now st username email password).status = 201
    ∧ jsonHasKey "password" (register hash now st username email password).body = false
    ∧ (register hash now st username email password).body
        = JsonVal.obj (.cons "message" (.str "Compte créé avec succès")
            (.cons "user" (sanitizedUser ⟨st.length, trimStr username,
              lowerStr (trimStr email), hash password, now⟩) .nil)) := by
  have hune : username ≠ "" := by
    intro hx
    rw [hx] at hu3
    exact absurd hu3 (by decide)
  have hene : email ≠ "" := by
    intro hx
    rw [hx] at hem
    exact absurd hem (by decide)
  have hpne : password ≠ "" := by
    intro hx
    rw [hx] at hp6
    exact absurd hp6 (by decide)
  have htu : trimStr username ≠ "" := by
    intro hx
    rw [hx] at hu3
    exact absurd hu3 (by decide)
  have hte : lowerStr (trimStr email) ≠ "" := by
    intro hx
    rw [hx] at hem
    exact absurd hem (by decide)
  have hhne : hash password ≠ "" := by
    intro hx
    rw [hx] at hh6
    exact absurd hh6 (by decide)
  have hf1 : st.find? (fun u => u.email == email) = none :=
    List.find?_eq_none.mpr (fun u hu => by simp [(hfreshE u hu).1])
  have hf2 : st.find? (fun u => u.username == username) = none :=
    List.find?_eq_none.mpr (fun u hu => by simp [(hfreshU u hu).1])
  have hval : userValidationErrors (trimStr username) (lowerStr (trimStr email))
      (hash password) = [] := by
    rw [userValidationErrors, if_neg htu, if_neg (by omega : ¬ (trimStr username).length < 3),
      if_neg hte, if_neg (by simp [hem]), if_neg hhne,
      if_neg (by omega : ¬ (hash password).length < 6)]
    rfl
  have hany1 : st.any (fun u => u.email == lowerStr (trimStr email)) = false :=
    List.any_eq_false.mpr (fun u hu => by simp [(hfreshE u hu).2])
  have hany2 : st.any (fun u => u.username == trimStr username) = false :=
    List.any_eq_false.mpr (fun u hu => by simp [(hfreshU u hu).2])
  have hreg : register hash now st username email password
      = ⟨st ++ [⟨st.length, trimStr username, lowerStr (trimStr email), hash password, now⟩],
          201,
          JsonVal.obj (.cons "message" (.str "Compte créé avec succès")
            (.cons "user" (sanitizedUser ⟨st.length, trimStr username,
              lowerStr (trimStr email), hash password, now⟩) .nil))⟩ := by
    simp [register, hune, hene, hpne, hf1, hf2, hval, hany1, hany2]
  rw [hreg]
  refine ⟨rfl, ?_, rfl⟩
  simp [jsonHasKey, fieldsHaveKey, sanitizedUser,
    (by decide : ("message" == "password") = false),
    (by decide : ("user" == "password") = false),
    (by decide : ("id" == "password") = false),
    (by decide : ("username" == "password") = false),
    (by decide : ("email" == "password") = false),
    (by decide : ("createdAt" == "password") = false)]

/-- Witness for C3 (amended): registering `david` / `d@mail.com` / `secret1`. -/
theorem register_valid_success_no_password_witness :
    (register (fun p => String.append "bcrypthash$" p) 3 [] "david" "d@mail.com" "secret1").status
        = 201
    ∧ jsonHasKey "password"
        (register (fun p => String.append "bcrypthash$" p) 3 [] "david" "d@mail.com" "secret1").body
        = false
    ∧ (register (fun p => String.append "bcrypthash$" p) 3 [] "david" "d@mail.com" "secret1").body
        = JsonVal.obj (.cons "message" (.str "Compte créé avec succès")
            (.cons "user" (sanitizedUser ⟨0, trimStr "david",
              lowerStr (trimStr "d@mail.com"), String.append "bcrypthash$" "secret1", 3⟩) .nil)) :=
  register_valid_success_no_password (fun p => String.append "bcrypthash$" p) 3 []
    "david" "d@mail.com" "secret1" (by decide) (by decide) (by decide) (by decide)
    (by simp) (by simp)
